import Mathlib

/-!
Verification of the half-edge mesh core of the `cfd-rs-utils` repository.

The Rust sources are shallowly embedded: `f64` coordinates become exact
rationals (`ℚ`), vectors become `List`s, index newtypes become `ℕ`, fallible
indexing becomes a `panic` outcome, `Result<_, MeshError>` becomes an `err`
outcome, and the unbounded `while` loops of the source become fuel-indexed
recursions whose fuel is taken exactly from the bound the source itself uses
(`he_len`); a fuel exhaustion that the source would turn into an infinite
loop is recorded as the `div` outcome.  Square roots of `f64` have no exact
counterpart, so the geometry kernel is parameterised by an abstract square
root function; every geometric fact proved here holds for any interpretation
of that function that satisfies the stated hypotheses (usually
only `sqrt 0 = 0`).
-/

namespace CfdRs

/-- A 2D point with exact rational coordinates (embedding `Point2<f64>`). -/
structure Pt where
  x : ℚ
  y : ℚ
deriving DecidableEq, Repr

/-- Embedding of `nalgebra`'s `Point2::lerp`: `a + (b - a) * t` componentwise. -/
def lerp (a b : Pt) (t : ℚ) : Pt :=
  ⟨a.x + (b.x - a.x) * t, a.y + (b.y - a.y) * t⟩

/-- Modelled from the spec: the payload of `Parent::Boundary`.  The type
`crate::boundary::Boundary` is not present under `src/` (only `Boundary2D`
is); §3 of the spec describes a boundary parent as "an edge of the outer
domain, optionally carrying a boundary-patch index", so the payload is an
optional patch index.  No operation verified here inspects the payload. -/
structure Boundary where
  patch : Option ℕ
deriving DecidableEq, Repr

/-- Embedding of `Parent` from `src/mesh/half_edge.rs`. -/
inductive Parent where
  | None : Parent
  | Cell : Parent
  | Boundary : CfdRs.Boundary → Parent
deriving DecidableEq, Repr

/-- Embedding of `MeshError` from `src/errors.rs` (indices as `ℕ`,
`f64` payloads as `ℚ`). -/
inductive MeshError where
  | Unspecified : MeshError
  | WrongFloatValue : ℚ → ℚ × ℚ → MeshError
  | HalfEdgeIndexOutOfBound : ℕ → ℕ → MeshError
  | VertexIndexOutOfBound : ℕ → ℕ → MeshError
  | ParentIndexOutOfBound : ℕ → ℕ → MeshError
  | TwinNotCorrect : ℕ → ℕ → ℕ → MeshError
  | ParentNotCorrect : ℕ → ℕ → ℕ → MeshError
  | WrongHalfEdgeLoop : ℕ → MeshError
  | NextPrevNotCorrect : ℕ → ℕ → ℕ → MeshError
  | AlreadyExists : MeshError
  | ParentDoesNotContainVertex : ℕ → ℕ → MeshError
  | WrongMeshInitialisation : MeshError
  | NoElementCreatable : ℕ → MeshError
  | MaxIterationReached : ℕ → MeshError
deriving DecidableEq, Repr

/-- Outcome of running a piece of embedded Rust code: normal return,
a typed `MeshError` (Rust `Err`), an index-out-of-bounds abort
(Rust panic), or non-termination of an unbounded loop (`div`). -/
inductive RRes (α : Type) where
  | ok : α → RRes α
  | err : MeshError → RRes α
  | panic : RRes α
  | div : RRes α
deriving DecidableEq, Repr

namespace RRes

def bind : RRes α → (α → RRes β) → RRes β
  | .ok a, f => f a
  | .err e, _ => .err e
  | .panic, _ => .panic
  | .div, _ => .div

@[simp] theorem bind_ok (a : α) (f : α → RRes β) : (RRes.ok a).bind f = f a := rfl

@[simp] theorem bind_err (e : MeshError) (f : α → RRes β) :
    (RRes.err e).bind f = RRes.err e := rfl

@[simp] theorem bind_panic (f : α → RRes β) : (RRes.panic : RRes α).bind f = RRes.panic := rfl

@[simp] theorem bind_div (f : α → RRes β) : (RRes.div : RRes α).bind f = RRes.div := rfl

end RRes

/-- Panic-aware indexing: Rust's `v[i]` on a `Vec`. -/
def fetch (l : List α) (i : ℕ) : RRes α :=
  match l[i]? with
  | some a => .ok a
  | none => .panic

/-- Panic-aware update: Rust's `v[i] = a` on a `Vec`. -/
def setF (l : List α) (i : ℕ) (a : α) : RRes (List α) :=
  if i < l.length then .ok (l.set i a) else .panic

theorem fetch_eq_ok {l : List α} {i : ℕ} (h : i < l.length) :
    fetch l i = .ok l[i] := by
  simp [fetch, List.getElem?_eq_getElem h]

theorem fetch_eq_panic {l : List α} {i : ℕ} (h : l.length ≤ i) :
    fetch l i = .panic := by
  simp [fetch, List.getElem?_eq_none h]

theorem fetch_ok_iff {l : List α} {i : ℕ} {a : α} :
    fetch l i = .ok a ↔ l[i]? = some a := by
  unfold fetch
  cases h : l[i]? <;> simp

theorem setF_eq_ok {l : List α} {i : ℕ} (a : α) (h : i < l.length) :
    setF l i a = .ok (l.set i a) := by
  simp [setF, h]

/-- Embedding of `usize::MAX`, used by `trimming` as a placeholder link. -/
def usizeMax : ℕ := 2 ^ 64 - 1

/-- Embedding of `Base2DMesh` from `src/mesh/half_edge.rs`: the five
parallel half-edge arrays, the vertex coordinates, the parent list and the
`parent → first half-edge` map. -/
structure Base2DMesh where
  he_to_vertex : List ℕ
  he_to_twin : List ℕ
  he_to_next_he : List ℕ
  he_to_prev_he : List ℕ
  he_to_parent : List ℕ
  vertices : List Pt
  parents : List Parent
  parent_to_first_he : List ℕ
deriving DecidableEq, Repr

namespace Base2DMesh

/-- `he_len`: the number of half-edges (length of `he_to_vertex`, as in the
source). -/
def heLen (m : Base2DMesh) : ℕ := m.he_to_vertex.length

/-- `vertices_len`. -/
def verticesLen (m : Base2DMesh) : ℕ := m.vertices.length

/-- `parents_len`. -/
def parentsLen (m : Base2DMesh) : ℕ := m.parents.length

/-- Embedding of the accessor `vertices(v_id)` (panics when out of range). -/
def verticesAt (m : Base2DMesh) (vId : ℕ) : RRes Pt :=
  fetch m.vertices vId

/-- Embedding of `vertices_from_he`: `[he_to_vertex[he], he_to_vertex[twin[he]]]`. -/
def verticesFromHe (m : Base2DMesh) (heId : ℕ) : RRes (ℕ × ℕ) :=
  (fetch m.he_to_vertex heId).bind fun a =>
    (fetch m.he_to_twin heId).bind fun tw =>
      (fetch m.he_to_vertex tw).bind fun b =>
        .ok (a, b)

/-- Total read of the `next` array used on the specification side
(meaningful whenever the index is in range). -/
def nextD (m : Base2DMesh) (h : ℕ) : ℕ := m.he_to_next_he.getD h 0

/-- Total read of the `prev` array used on the specification side. -/
def prevD (m : Base2DMesh) (h : ℕ) : ℕ := m.he_to_prev_he.getD h 0

/-- Total read of the `twin` array used on the specification side. -/
def twinD (m : Base2DMesh) (h : ℕ) : ℕ := m.he_to_twin.getD h 0

/-- Total read of the origin-vertex array used on the specification side. -/
def vertD (m : Base2DMesh) (h : ℕ) : ℕ := m.he_to_vertex.getD h 0

/-- Total read of the parent array used on the specification side. -/
def parD (m : Base2DMesh) (h : ℕ) : ℕ := m.he_to_parent.getD h 0

/-- The cycle-collecting loop of `he_from_parent`: `result` starts as
`[first_he]` and half-edges are appended while the walk has not returned to
`first_he`.  The fuel counts the remaining `push`es the source could still
perform before having followed `next` more than `he_len` times; as proved
below (`aux_return_within_len`), a cycle that does not close within
`he_len` steps never closes, so exhausting this fuel corresponds to an
infinite loop of the source (`div`). -/
def heFromParentAux (nxt : List ℕ) (first : ℕ) : ℕ → List ℕ → ℕ → RRes (List ℕ)
  | fuel, acc, cur =>
    if cur = first then .ok acc.reverse
    else
      (fetch nxt cur).bind fun nx =>
        match fuel with
        | 0 => .div
        | fuel + 1 => heFromParentAux nxt first fuel (cur :: acc) nx

/-- Embedding of `he_from_parent(parent_id)`. -/
def heFromParent (m : Base2DMesh) (p : ℕ) : RRes (List ℕ) :=
  (fetch m.parent_to_first_he p).bind fun first =>
    (fetch m.he_to_next_he first).bind fun cur =>
      heFromParentAux m.he_to_next_he first m.heLen [first] cur

/-- Embedding of `he_from_vertex(vertex_id)`: indices of all half-edges whose
origin is the given vertex, in increasing order.  The source loop indexes
only within `0..he_len`, so it cannot panic and is embedded as a pure
function on the origin array. -/
def heFromVertexL : List ℕ → ℕ → ℕ → List ℕ
  | [], _, _ => []
  | x :: xs, vid, i =>
    if x = vid then i :: heFromVertexL xs vid (i + 1) else heFromVertexL xs vid (i + 1)

def heFromVertex (m : Base2DMesh) (vid : ℕ) : List ℕ :=
  heFromVertexL m.he_to_vertex vid 0

end Base2DMesh

section Geometry

/-- Embedding of `geometry::line_length`, parameterised by the abstract
square root: the norm of `points[1] - points[0]`. -/
def line_length (sq : ℚ → ℚ) (p0 p1 : Pt) : ℚ :=
  sq ((p1.x - p0.x) ^ 2 + (p1.y - p0.y) ^ 2)

/-- Embedding of `geometry::triangle_area` (Heron's formula); `none` models
the `assert_eq!(points.len(), 3)` panic. -/
def triangle_area (sq : ℚ → ℚ) (ps : List Pt) : Option ℚ :=
  match ps with
  | [a, b, c] =>
    let la := line_length sq a b
    let lb := line_length sq b c
    let lc := line_length sq c a
    let s := (1 / 2 : ℚ) * (la + lb + lc)
    some (sq (s * (s - la) * (s - lb) * (s - lc)))
  | _ => none

/-- Embedding of `geometry::triangle_centroid`; `none` models the length
assertion. -/
def triangle_centroid (ps : List Pt) : Option Pt :=
  match ps with
  | [a, b, c] => some ⟨(a.x + b.x + c.x) / 3, (a.y + b.y + c.y) / 3⟩
  | _ => none

/-- Embedding of `geometry::geometric_center`: the arithmetic mean of the
points. -/
def geometric_center (ps : List Pt) : Pt :=
  let s := ps.foldl (fun acc p => (acc.1 + p.x, acc.2 + p.y)) ((0 : ℚ), (0 : ℚ))
  ⟨s.1 / ps.length, s.2 / ps.length⟩

/-- The fan loop of `centroid_and_area`, iterating `i` over `0..n` exactly as
the source does: the sub-triangle at step `i` is
`[points[i], points[i % n], geometric_center]` (note `i % n = i`, faithfully
kept from the source), accumulating `(centroid_x, centroid_y, area)`. -/
def canLoop (sq : ℚ → ℚ) (ps : List Pt) (g : Pt) :
    List ℕ → (ℚ × ℚ × ℚ) → Option (ℚ × ℚ × ℚ)
  | [], acc => some acc
  | i :: rest, acc =>
    match ps[i]?, ps[i % ps.length]? with
    | some pa, some pb =>
      match triangle_area sq [pa, pb, g], triangle_centroid [pa, pb, g] with
      | some subArea, some subC =>
        canLoop sq ps g rest
          (acc.1 + subC.x * subArea, acc.2.1 + subC.y * subArea, acc.2.2 + subArea)
      | _, _ => none
    | _, _ => none

/-- Embedding of `geometry::centroid_and_area`; `none` models the explicit
panic on fewer than three points.  The final division `centroid / area` is
rational division (total, with `q / 0 = 0`); on the source side a zero
accumulated area would make this division produce `f64` NaNs. -/
def centroid_and_area (sq : ℚ → ℚ) (ps : List Pt) : Option (Pt × ℚ) :=
  if ps.length < 3 then none
  else if ps.length = 3 then
    match triangle_centroid ps, triangle_area sq ps with
    | some c, some a => some (c, a)
    | _, _ => none
  else
    let g := geometric_center ps
    match canLoop sq ps g (List.range ps.length) (0, 0, 0) with
    | some (cx, cy, area) => some (⟨cx / area, cy / area⟩, area)
    | none => none

end Geometry

section CheckMesh

open Base2DMesh

/-- One range-check pass of `check_mesh`: walks a list of stored indices and
returns the given typed error at the first entry that is not below the
bound. -/
def checkIdxList (mk : ℕ → ℕ → MeshError) (n : ℕ) : List ℕ → RRes Unit
  | [] => .ok ()
  | x :: xs => if n ≤ x then .err (mk x n) else checkIdxList mk n xs

/-- The `twin(twin(h)) = h` pass of `check_mesh`, walking `he_to_twin` with
its index. -/
def checkTwinTwin (twinAll : List ℕ) : List ℕ → ℕ → RRes Unit
  | [], _ => .ok ()
  | he :: rest, i =>
    (fetch twinAll he).bind fun tt =>
      if tt ≠ i then .err (.TwinNotCorrect i he tt)
      else checkTwinTwin twinAll rest (i + 1)

/-- The `prev(next(h)) = h` pass of `check_mesh`, walking `he_to_next_he`
with its index. -/
def checkNextPrev (prevAll : List ℕ) : List ℕ → ℕ → RRes Unit
  | [], _ => .ok ()
  | nx :: rest, i =>
    (fetch prevAll nx).bind fun pv =>
      if i ≠ pv then .err (.NextPrevNotCorrect i nx pv)
      else checkNextPrev prevAll rest (i + 1)

/-- The inner `while` of the cycle-probing loop of `check_mesh` (source lines
"Might be redundant with the previous check"): follows `next` from `origin`
until it returns or the counter reaches the half-edge count, and — exactly as
the source does — reports nothing either way. -/
def probeAux (nxt : List ℕ) (origin : ℕ) : ℕ → ℕ → RRes Unit
  | fuel, cur =>
    if cur = origin then .ok ()
    else
      (fetch nxt cur).bind fun c2 =>
        match fuel with
        | 0 => .ok ()
        | fuel + 1 => probeAux nxt origin fuel c2

def probeOne (nxt : List ℕ) (len : ℕ) (origin : ℕ) : RRes Unit :=
  (fetch nxt origin).bind fun c => probeAux nxt origin len c

def probeAll (nxt : List ℕ) (len : ℕ) : List ℕ → RRes Unit
  | [] => .ok ()
  | o :: os => (probeOne nxt len o).bind fun _ => probeAll nxt len os

/-- The per-parent ownership pass of `check_mesh`: each half-edge reached by
`he_from_parent(p)` must record `p` as its parent. -/
def checkOwn (par : List ℕ) (p : ℕ) : List ℕ → RRes Unit
  | [] => .ok ()
  | he :: rest =>
    (fetch par he).bind fun q =>
      if q ≠ p then .err (.ParentNotCorrect p he q)
      else checkOwn par p rest

def checkParents (m : Base2DMesh) : List ℕ → RRes Unit
  | [] => .ok ()
  | p :: rest =>
    (m.heFromParent p).bind fun l =>
      (checkOwn m.he_to_parent p l).bind fun _ => checkParents m rest

/-- Embedding of `Base2DMesh::check_mesh`.  The four initial `assert_eq!`
length checks become panics, and each subsequent pass mirrors one `for` loop
of the source, in source order. -/
def checkMesh (m : Base2DMesh) : RRes Unit :=
  if m.he_to_next_he.length = m.he_to_twin.length then
    if m.he_to_prev_he.length = m.he_to_twin.length then
      if m.he_to_vertex.length = m.he_to_twin.length then
        if m.he_to_parent.length = m.he_to_twin.length then
          (checkIdxList .VertexIndexOutOfBound m.vertices.length m.he_to_vertex).bind fun _ =>
            (checkIdxList .HalfEdgeIndexOutOfBound m.he_to_vertex.length m.he_to_twin).bind fun _ =>
              (checkTwinTwin m.he_to_twin m.he_to_twin 0).bind fun _ =>
                (checkIdxList .HalfEdgeIndexOutOfBound m.he_to_vertex.length m.he_to_next_he).bind fun _ =>
                  (checkIdxList .HalfEdgeIndexOutOfBound m.he_to_vertex.length m.he_to_prev_he).bind fun _ =>
                    (checkNextPrev m.he_to_prev_he m.he_to_next_he 0).bind fun _ =>
                      (probeAll m.he_to_next_he m.he_to_vertex.length
                          (List.range m.he_to_vertex.length)).bind fun _ =>
                        (checkIdxList .ParentIndexOutOfBound m.parents.length m.he_to_parent).bind fun _ =>
                          checkParents m (List.range m.parents.length)
        else .panic
      else .panic
    else .panic
  else .panic

end CheckMesh

section StateMonad

/-- State-threading computation over a `Base2DMesh`, embedding `&mut self`
methods: the final state records the mesh at the moment the method returned
(for `err` results this is the state Rust would leave behind in `self`). -/
def StM (α : Type) := Base2DMesh → RRes α × Base2DMesh

instance : Monad StM where
  pure a := fun s => (.ok a, s)
  bind x f := fun s =>
    match x s with
    | (.ok a, s1) => f a s1
    | (.err e, s1) => (.err e, s1)
    | (.panic, s1) => (.panic, s1)
    | (.div, s1) => (.div, s1)

def mget : StM Base2DMesh := fun s => (.ok s, s)

def mthrow (e : MeshError) : StM α := fun s => (.err e, s)

/-- Read index `i` of one of the mesh arrays in the current state. -/
def readL (proj : Base2DMesh → List α) (i : ℕ) : StM α := fun s => (fetch (proj s) i, s)

def writeTwin (i x : ℕ) : StM Unit := fun s =>
  match setF s.he_to_twin i x with
  | .ok l => (.ok (), { s with he_to_twin := l })
  | _ => (.panic, s)

def writeNext (i x : ℕ) : StM Unit := fun s =>
  match setF s.he_to_next_he i x with
  | .ok l => (.ok (), { s with he_to_next_he := l })
  | _ => (.panic, s)

def writePrev (i x : ℕ) : StM Unit := fun s =>
  match setF s.he_to_prev_he i x with
  | .ok l => (.ok (), { s with he_to_prev_he := l })
  | _ => (.panic, s)

def writeHeParent (i x : ℕ) : StM Unit := fun s =>
  match setF s.he_to_parent i x with
  | .ok l => (.ok (), { s with he_to_parent := l })
  | _ => (.panic, s)

def writeVertexPos (i : ℕ) (p : Pt) : StM Unit := fun s =>
  match setF s.vertices i p with
  | .ok l => (.ok (), { s with vertices := l })
  | _ => (.panic, s)

def writeFirstHe (i x : ℕ) : StM Unit := fun s =>
  match setF s.parent_to_first_he i x with
  | .ok l => (.ok (), { s with parent_to_first_he := l })
  | _ => (.panic, s)

def pushHeVertex (x : ℕ) : StM Unit := fun s =>
  (.ok (), { s with he_to_vertex := s.he_to_vertex ++ [x] })

def pushTwin (x : ℕ) : StM Unit := fun s =>
  (.ok (), { s with he_to_twin := s.he_to_twin ++ [x] })

def pushNext (x : ℕ) : StM Unit := fun s =>
  (.ok (), { s with he_to_next_he := s.he_to_next_he ++ [x] })

def pushPrev (x : ℕ) : StM Unit := fun s =>
  (.ok (), { s with he_to_prev_he := s.he_to_prev_he ++ [x] })

def pushHeParent (x : ℕ) : StM Unit := fun s =>
  (.ok (), { s with he_to_parent := s.he_to_parent ++ [x] })

def pushVertexPos (p : Pt) : StM Unit := fun s =>
  (.ok (), { s with vertices := s.vertices ++ [p] })

def pushParent (p : Parent) : StM Unit := fun s =>
  (.ok (), { s with parents := s.parents ++ [p] })

def pushFirstHe (x : ℕ) : StM Unit := fun s =>
  (.ok (), { s with parent_to_first_he := s.parent_to_first_he ++ [x] })

@[simp] theorem pure_run (a : α) (s : Base2DMesh) : (pure a : StM α) s = (.ok a, s) := rfl

@[simp] theorem bind_run (x : StM α) (f : α → StM β) (s : Base2DMesh) :
    (x >>= f) s =
      match x s with
      | (.ok a, s1) => f a s1
      | (.err e, s1) => (.err e, s1)
      | (.panic, s1) => (.panic, s1)
      | (.div, s1) => (.div, s1) := rfl

@[simp] theorem mget_run (s : Base2DMesh) : mget s = (.ok s, s) := rfl

@[simp] theorem mthrow_run (e : MeshError) (s : Base2DMesh) :
    (mthrow e : StM α) s = (.err e, s) := rfl

@[simp] theorem readL_run (proj : Base2DMesh → List α) (i : ℕ) (s : Base2DMesh) :
    readL proj i s = (fetch (proj s) i, s) := rfl

end StateMonad

section Operations

open Base2DMesh

/-- The post-check part of `split_edge`: the vertex interpolation and the
array edits, in source order. -/
def splitEdgeBody (heId : ℕ) (t : ℚ) : StM Unit := do
  let m ← mget
  let newVertexId := m.vertices.length
  let ev0 ← readL Base2DMesh.he_to_vertex heId
  let tw0 ← readL Base2DMesh.he_to_twin heId
  let ev1 ← readL Base2DMesh.he_to_vertex tw0
  let p0 ← readL Base2DMesh.vertices ev0
  let p1 ← readL Base2DMesh.vertices ev1
  let newPos := lerp p0 p1 t
  let heTwin ← readL Base2DMesh.he_to_twin heId
  pushVertexPos newPos
  let m1 ← mget
  let n := m1.he_to_twin.length
  pushHeVertex newVertexId
  pushHeVertex newVertexId
  pushTwin heTwin
  pushTwin heId
  writeTwin heId (n + 1)
  writeTwin heTwin n
  let nxt0 ← readL Base2DMesh.he_to_next_he heId
  writeNext heId n
  pushNext nxt0
  writePrev nxt0 n
  let nxt1 ← readL Base2DMesh.he_to_next_he heTwin
  writeNext heTwin (n + 1)
  pushNext nxt1
  writePrev nxt1 (n + 1)
  pushPrev heId
  pushPrev heTwin
  let par0 ← readL Base2DMesh.he_to_parent heId
  pushHeParent par0
  let par1 ← readL Base2DMesh.he_to_parent heTwin
  pushHeParent par1

/-- Embedding of `Modifiable2DMesh::split_edge`: the two recoverable checks
of the source, then `splitEdgeBody`. -/
def splitEdgeM (heId : ℕ) (t : ℚ) : StM Unit := do
  let m ← mget
  if m.heLen ≤ heId then mthrow (.HalfEdgeIndexOutOfBound heId m.heLen)
  else if 1 ≤ t ∨ t ≤ 0 then mthrow (.WrongFloatValue t (0, 1))
  else splitEdgeBody heId t

def splitEdge (m : Base2DMesh) (heId : ℕ) (t : ℚ) : RRes Unit × Base2DMesh :=
  splitEdgeM heId t m

/-- The duplicate-edge scan of `trimming`: errs with `AlreadyExists` at the
first `i` with `he_to_vertex[i] = u` and `he_to_vertex[twin[i]] = v`. -/
def scanEdgeExistsM (u v : ℕ) : List ℕ → ℕ → StM Unit
  | [], _ => pure ()
  | tw :: rest, i => do
    let a ← readL Base2DMesh.he_to_vertex i
    let b ← readL Base2DMesh.he_to_vertex tw
    if a = u ∧ b = v then mthrow .AlreadyExists
    else scanEdgeExistsM u v rest (i + 1)

/-- The first-half-edge-with-parent search of `trimming`. -/
def findWithParentM (p : ℕ) : List ℕ → StM (Option ℕ)
  | [] => pure Option.none
  | he :: rest => do
    let pr ← readL Base2DMesh.he_to_parent he
    if pr = p then pure (some he) else findWithParentM p rest

/-- The two re-parenting `while` loops of `trimming`: mark the current
half-edge with `newPar` and follow `next` until a half-edge originating at
`tgt` is reached; the fuel mirrors the source's `i` counter against
`he_len` (initial fuel `he_len - 1`, so exactly `he_len` loop bodies run
before the `ParentDoesNotContainVertex` bail-out). -/
def reparentLoopM (tgt newPar errV errP : ℕ) : ℕ → ℕ → StM ℕ
  | fuel, cur => do
    let w ← readL Base2DMesh.he_to_vertex cur
    if w = tgt then pure cur
    else do
      writeHeParent cur newPar
      let cur2 ← readL Base2DMesh.he_to_next_he cur
      match fuel with
      | 0 => mthrow (.ParentDoesNotContainVertex errV errP)
      | fuel + 1 => reparentLoopM tgt newPar errV errP fuel cur2

/-- Embedding of `Modifiable2DMesh::trimming`, line for line. -/
def trimmingM (u v p : ℕ) : StM ℕ := do
  let m ← mget
  if m.vertices.length ≤ u then mthrow (.VertexIndexOutOfBound u m.vertices.length)
  else if m.vertices.length ≤ v then mthrow (.VertexIndexOutOfBound v m.vertices.length)
  else do
    scanEdgeExistsM u v m.he_to_twin 0
    let m1 ← mget
    let foundU ← findWithParentM p (m1.heFromVertex u)
    match foundU with
    | Option.none => mthrow (.ParentDoesNotContainVertex u p)
    | some heStart => do
      let m2 ← mget
      let foundV ← findWithParentM p (m2.heFromVertex v)
      match foundV with
      | Option.none => mthrow (.ParentDoesNotContainVertex v p)
      | some _ => do
        let m3 ← mget
        let n := m3.heLen
        pushHeVertex v
        pushHeVertex u
        pushTwin (n + 1)
        pushTwin n
        let m4 ← mget
        let newCell := m4.parents.length
        pushParent .Cell
        pushHeParent p
        pushHeParent newCell
        pushNext heStart
        pushNext usizeMax
        pushPrev usizeMax
        let pv ← readL Base2DMesh.he_to_prev_he heStart
        pushPrev pv
        let pv2 ← readL Base2DMesh.he_to_prev_he heStart
        writeNext pv2 (n + 1)
        writePrev heStart n
        let m5 ← mget
        let cur ← reparentLoopM v p v p (m5.heLen - 1) heStart
        let pvc ← readL Base2DMesh.he_to_prev_he cur
        writePrev n pvc
        writeNext (n + 1) cur
        let pvc2 ← readL Base2DMesh.he_to_prev_he cur
        writeNext pvc2 n
        writePrev cur (n + 1)
        let m6 ← mget
        let _ ← reparentLoopM u newCell u p (m6.heLen - 1) cur
        writeFirstHe p n
        pushFirstHe (n + 1)
        pure newCell

def trimming (m : Base2DMesh) (u v p : ℕ) : RRes ℕ × Base2DMesh :=
  trimmingM u v p m

/-- Embedding of `Modifiable2DMesh::notching`: record the neighbouring
parent and the edge's endpoints, split at `t = 0.5` (the exact rational
`mkRat 1 2`), move the new vertex to `pos`, then trim between the original
endpoints inside the neighbour. -/
def notchingM (he : ℕ) (pos : Pt) : StM ℕ := do
  let m ← mget
  if m.heLen ≤ he then mthrow (.HalfEdgeIndexOutOfBound he m.heLen)
  else do
    let tw ← readL Base2DMesh.he_to_twin he
    let parent ← readL Base2DMesh.he_to_parent tw
    let ev0 ← readL Base2DMesh.he_to_vertex he
    let tw2 ← readL Base2DMesh.he_to_twin he
    let ev1 ← readL Base2DMesh.he_to_vertex tw2
    let m1 ← mget
    let newVertex := m1.vertices.length
    splitEdgeM he (mkRat 1 2)
    writeVertexPos newVertex pos
    trimmingM ev0 ev1 parent

def notching (m : Base2DMesh) (he : ℕ) (pos : Pt) : RRes ℕ × Base2DMesh :=
  notchingM he pos m

end Operations

section Construction

/-- The edge loop of `new_from_boundary`: for each oriented boundary edge
`(v_from, v_to, boundary_parent)` push the interior-side and boundary-side
half-edges and link them to the previous pair (skipping the links on the
first edge, as the source's `continue` does). -/
def nfbLoop (cell : ℕ) : List (ℕ × ℕ × ℕ) → ℕ → ℕ → ℕ → Base2DMesh →
    RRes (Base2DMesh × ℕ × ℕ)
  | [], _, prev1, prev2, m => .ok (m, prev1, prev2)
  | e :: rest, i, prev1, prev2, m =>
    let newHe1 := m.he_to_vertex.length
    let newHe2 := newHe1 + 1
    let m' : Base2DMesh := { m with
      he_to_vertex := m.he_to_vertex ++ [e.1, e.2.1],
      he_to_twin := m.he_to_twin ++ [newHe2, newHe1],
      he_to_parent := m.he_to_parent ++ [cell, e.2.2],
      he_to_next_he := m.he_to_next_he ++ [0, 0],
      he_to_prev_he := m.he_to_prev_he ++ [0, 0] }
    if i = 0 then nfbLoop cell rest (i + 1) newHe1 newHe2 m'
    else
      (setF m'.he_to_next_he newHe2 prev2).bind fun hn =>
        let m1 : Base2DMesh := { m' with he_to_next_he := hn }
        (setF m1.he_to_prev_he newHe1 prev1).bind fun hp =>
          let m2 : Base2DMesh := { m1 with he_to_prev_he := hp }
          (setF m2.he_to_next_he prev1 newHe1).bind fun hn2 =>
            let m3 : Base2DMesh := { m2 with he_to_next_he := hn2 }
            (setF m3.he_to_prev_he prev2 newHe2).bind fun hp2 =>
              let m4 : Base2DMesh := { m3 with he_to_prev_he := hp2 }
              nfbLoop cell rest (i + 1) newHe1 newHe2 m4

/-- First position of `x` in a list (the `break`ing inner loop of the
`parent_to_first_he` construction). -/
def firstIdxOf (x : ℕ) : List ℕ → ℕ → Option ℕ
  | [], _ => Option.none
  | y :: ys, j => if x = y then some j else firstIdxOf x ys (j + 1)

/-- Embedding of `Modifiable2DMesh::new_from_boundary`: append the single
interior cell parent, run the edge loop, close both cycles with the four
final link writes, then build `parent_to_first_he` (a parent with no
half-edge contributes no entry, as in the source). -/
def newFromBoundary (vertices : List Pt) (edges : List (ℕ × ℕ × ℕ))
    (parents : List Parent) : RRes Base2DMesh :=
  let cell := parents.length
  let parents' := parents ++ [Parent.Cell]
  let m0 : Base2DMesh :=
    { he_to_vertex := [], he_to_twin := [], he_to_next_he := [], he_to_prev_he := [],
      he_to_parent := [], vertices := vertices, parents := parents',
      parent_to_first_he := [] }
  (nfbLoop cell edges 0 0 0 m0).bind fun r =>
    let m := r.1
    let prev1 := r.2.1
    let prev2 := r.2.2
    (setF m.he_to_next_he 1 prev2).bind fun hn =>
      let m1 : Base2DMesh := { m with he_to_next_he := hn }
      (setF m1.he_to_prev_he 0 prev1).bind fun hp =>
        let m2 : Base2DMesh := { m1 with he_to_prev_he := hp }
        (setF m2.he_to_next_he prev1 0).bind fun hn2 =>
          let m3 : Base2DMesh := { m2 with he_to_next_he := hn2 }
          (setF m3.he_to_prev_he prev2 1).bind fun hp2 =>
            let m4 : Base2DMesh := { m3 with he_to_prev_he := hp2 }
            .ok { m4 with
              parent_to_first_he :=
                (List.range m4.parents.length).filterMap
                  (fun i => firstIdxOf i m4.he_to_parent 0) }

/-- The unit-square boundary mesh of spec scenario 1: four vertices, four
boundary edges in cyclic order all owned by the single boundary parent 0,
and the implicit interior cell parent 1 appended by the constructor. -/
def sqMesh : Base2DMesh :=
  { he_to_vertex := [0, 1, 1, 2, 2, 3, 3, 0],
    he_to_twin := [1, 0, 3, 2, 5, 4, 7, 6],
    he_to_next_he := [2, 7, 4, 1, 6, 3, 0, 5],
    he_to_prev_he := [6, 3, 0, 5, 2, 7, 4, 1],
    he_to_parent := [1, 0, 1, 0, 1, 0, 1, 0],
    vertices := [⟨0, 0⟩, ⟨1, 0⟩, ⟨1, 1⟩, ⟨0, 1⟩],
    parents := [Parent.Boundary ⟨some 0⟩, Parent.Cell],
    parent_to_first_he := [1, 0] }

/-- Sanity: `sqMesh` is exactly what `new_from_boundary` produces from the
spec-scenario-1 input. -/
theorem sqMesh_eq_newFromBoundary :
    newFromBoundary [⟨0, 0⟩, ⟨1, 0⟩, ⟨1, 1⟩, ⟨0, 1⟩]
      [(0, 1, 0), (1, 2, 0), (2, 3, 0), (3, 0, 0)]
      [Parent.Boundary ⟨some 0⟩] = .ok sqMesh := by
  decide

/-- Sanity: the unit-square mesh passes `check_mesh` (spec scenario 1 says
`validate_topology` succeeds on it). -/
theorem sqMesh_check : checkMesh sqMesh = .ok () := by decide

end Construction

section GeometryFacts

/-- The sub-triangles actually built by the fan loop are `[p, p, g]`
(because the source indexes `points[i % points.len()]` with `i` already
below `points.len()`); Heron's formula on such a triangle yields an exact
zero for every square-root function with `sq 0 = 0`, since the radicand
contains the factor `s - lb = 0`. -/
theorem triangle_area_degenerate (sq : ℚ → ℚ) (h0 : sq 0 = 0) (p g : Pt) :
    triangle_area sq [p, p, g] = some 0 := by
  simp only [triangle_area, line_length]
  have e1 : (p.x - p.x) ^ 2 + (p.y - p.y) ^ 2 = 0 := by ring
  have e2 : (p.x - g.x) ^ 2 + (p.y - g.y) ^ 2 = (g.x - p.x) ^ 2 + (g.y - p.y) ^ 2 := by
    ring
  rw [e1, e2, h0]
  have e3 : ∀ b : ℚ,
      1 / 2 * (0 + b + b) * (1 / 2 * (0 + b + b) - 0) * (1 / 2 * (0 + b + b) - b) *
        (1 / 2 * (0 + b + b) - b) = 0 := by
    intro b; ring
  rw [e3, h0]

end GeometryFacts

section ClaimC1

/-- C1.  The claim states that for `n ≥ 4` points `centroid_and_area`
fan-triangulates from the arithmetic mean using sub-triangles
`(points[i], points[i+1 mod n], center)`.  The code instead builds
`(points[i], points[i mod n], center) = (points[i], points[i], center)`:
every sub-triangle is degenerate, so on the unit square the accumulated
area is exactly `0` (and the final `centroid / area` divides by zero, a NaN
in `f64`), for every square-root interpretation with `sq 0 = 0` — instead
of the fan result (centroid `(1/2, 1/2)`, area `1`). -/
theorem C1_centroid_and_area_degenerate_fan (sq : ℚ → ℚ) (h0 : sq 0 = 0) :
    centroid_and_area sq [⟨0, 0⟩, ⟨1, 0⟩, ⟨1, 1⟩, ⟨0, 1⟩] =
      some (⟨0, 0⟩, 0) := by
  have hg : geometric_center [⟨0, 0⟩, ⟨1, 0⟩, ⟨1, 1⟩, ⟨0, 1⟩] = (⟨1 / 2, 1 / 2⟩ : Pt) := by
    simp only [geometric_center, List.foldl, List.length_cons, List.length_nil]
    norm_num
  have ta : ∀ p : Pt, triangle_area sq [p, p, (⟨1 / 2, 1 / 2⟩ : Pt)] = some 0 :=
    fun p => triangle_area_degenerate sq h0 p _
  simp only [centroid_and_area, List.length_cons, List.length_nil, hg]
  norm_num
  simp only [List.range_succ, List.range_zero, canLoop, List.nil_append,
    List.cons_append]
  norm_num [ta, triangle_centroid]

/-- Witness for C1 at the identity square-root interpretation. -/
theorem C1_witness :
    centroid_and_area id [⟨0, 0⟩, ⟨1, 0⟩, ⟨1, 1⟩, ⟨0, 1⟩] = some (⟨0, 0⟩, 0) :=
  C1_centroid_and_area_degenerate_fan id rfl

end ClaimC1

section AccessorFacts

open Base2DMesh

theorem fetch_ne_err (l : List α) (i : ℕ) (e : MeshError) : fetch l i ≠ .err e := by
  unfold fetch
  cases l[i]? <;> simp

theorem verticesFromHe_ne_err (m : Base2DMesh) (h : ℕ) (e : MeshError) :
    m.verticesFromHe h ≠ .err e := by
  unfold Base2DMesh.verticesFromHe
  cases h1 : fetch m.he_to_vertex h with
  | err e1 => exact absurd h1 (fetch_ne_err _ _ _)
  | panic => simp
  | div => simp
  | ok a =>
    simp only [RRes.bind_ok]
    cases h2 : fetch m.he_to_twin h with
    | err e2 => exact absurd h2 (fetch_ne_err _ _ _)
    | panic => simp
    | div => simp
    | ok tw =>
      simp only [RRes.bind_ok]
      cases h3 : fetch m.he_to_vertex tw with
      | err e3 => exact absurd h3 (fetch_ne_err _ _ _)
      | panic => simp
      | div => simp
      | ok b => simp

theorem heFromParentAux_ne_err (nxt : List ℕ) (first : ℕ) (fuel : ℕ) (acc : List ℕ)
    (cur : ℕ) (e : MeshError) : heFromParentAux nxt first fuel acc cur ≠ .err e := by
  induction fuel generalizing acc cur with
  | zero =>
    unfold heFromParentAux
    split
    · simp
    · cases h1 : fetch nxt cur with
      | err e1 => exact absurd h1 (fetch_ne_err _ _ _)
      | panic => simp
      | div => simp
      | ok a => simp
  | succ fuel ih =>
    unfold heFromParentAux
    split
    · simp
    · cases h1 : fetch nxt cur with
      | err e1 => exact absurd h1 (fetch_ne_err _ _ _)
      | panic => simp
      | div => simp
      | ok a => simp [ih]

theorem heFromParent_ne_err (m : Base2DMesh) (p : ℕ) (e : MeshError) :
    m.heFromParent p ≠ .err e := by
  unfold Base2DMesh.heFromParent
  cases h1 : fetch m.parent_to_first_he p with
  | err e1 => exact absurd h1 (fetch_ne_err _ _ _)
  | panic => simp
  | div => simp
  | ok first =>
    simp only [RRes.bind_ok]
    cases h2 : fetch m.he_to_next_he first with
    | err e2 => exact absurd h2 (fetch_ne_err _ _ _)
    | panic => simp
    | div => simp
    | ok cur => simp [heFromParentAux_ne_err]

/-- C10.  The `Base2DMesh` read accessors return plain values, not
`Result`s: on any out-of-range index `vertices`, `vertices_from_he` and
`he_from_parent` abort with an index-out-of-bounds panic, and none of the
three can produce a typed `MeshError` for any input. -/
theorem C10_accessors_panic_never_err (m : Base2DMesh) (v h p : ℕ) :
    (m.vertices.length ≤ v → m.verticesAt v = .panic) ∧
    (m.heLen ≤ h → m.verticesFromHe h = .panic) ∧
    (m.parent_to_first_he.length ≤ p → m.heFromParent p = .panic) ∧
    (∀ e, m.verticesAt v ≠ .err e) ∧
    (∀ e, m.verticesFromHe h ≠ .err e) ∧
    (∀ e, m.heFromParent p ≠ .err e) := by
  refine ⟨fun hv => ?_, fun hh => ?_, fun hp => ?_, fun e => ?_, fun e => ?_, fun e => ?_⟩
  · exact fetch_eq_panic hv
  · unfold Base2DMesh.verticesFromHe
    rw [fetch_eq_panic hh]
    rfl
  · unfold Base2DMesh.heFromParent
    rw [fetch_eq_panic hp]
    rfl
  · exact fetch_ne_err _ _ _
  · exact verticesFromHe_ne_err _ _ _
  · exact heFromParent_ne_err _ _ _

/-- Witness for C10 on the unit-square mesh at out-of-range indices. -/
theorem C10_witness :
    Base2DMesh.verticesAt sqMesh 99 = .panic ∧
    Base2DMesh.verticesFromHe sqMesh 99 = .panic ∧
    Base2DMesh.heFromParent sqMesh 99 = .panic := by
  obtain ⟨h1, h2, h3, _, _, _⟩ := C10_accessors_panic_never_err sqMesh 99 99 99
  exact ⟨h1 (by decide), h2 (by decide), h3 (by decide)⟩

end AccessorFacts

section CheckErrShapes

theorem checkIdxList_err_shape {mk : ℕ → ℕ → MeshError} {n : ℕ} {l : List ℕ}
    {e : MeshError} (h : checkIdxList mk n l = .err e) : ∃ a b, e = mk a b := by
  induction l with
  | nil => simp [checkIdxList] at h
  | cons x xs ih =>
    unfold checkIdxList at h
    split at h
    · exact ⟨x, n, by simpa using h.symm⟩
    · exact ih h

theorem checkTwinTwin_err_shape {twinAll : List ℕ} {l : List ℕ} {i : ℕ}
    {e : MeshError} (h : checkTwinTwin twinAll l i = .err e) :
    ∃ a b c, e = .TwinNotCorrect a b c := by
  induction l generalizing i with
  | nil => simp [checkTwinTwin] at h
  | cons x xs ih =>
    unfold checkTwinTwin at h
    cases h1 : fetch twinAll x with
    | err e1 => exact absurd h1 (fetch_ne_err _ _ _)
    | panic => rw [h1] at h; simp at h
    | div => rw [h1] at h; simp at h
    | ok tt =>
      rw [h1] at h
      simp only [RRes.bind_ok] at h
      split at h
      · exact ⟨i, x, tt, by simpa using h.symm⟩
      · exact ih h

theorem checkNextPrev_err_shape {prevAll : List ℕ} {l : List ℕ} {i : ℕ}
    {e : MeshError} (h : checkNextPrev prevAll l i = .err e) :
    ∃ a b c, e = .NextPrevNotCorrect a b c := by
  induction l generalizing i with
  | nil => simp [checkNextPrev] at h
  | cons x xs ih =>
    unfold checkNextPrev at h
    cases h1 : fetch prevAll x with
    | err e1 => exact absurd h1 (fetch_ne_err _ _ _)
    | panic => rw [h1] at h; simp at h
    | div => rw [h1] at h; simp at h
    | ok pv =>
      rw [h1] at h
      simp only [RRes.bind_ok] at h
      split at h
      · exact ⟨i, x, pv, by simpa using h.symm⟩
      · exact ih h

theorem probeAux_ne_err (nxt : List ℕ) (origin : ℕ) (fuel cur : ℕ) (e : MeshError) :
    probeAux nxt origin fuel cur ≠ .err e := by
  induction fuel generalizing cur with
  | zero =>
    unfold probeAux
    split
    · simp
    · cases h1 : fetch nxt cur with
      | err e1 => exact absurd h1 (fetch_ne_err _ _ _)
      | panic => simp
      | div => simp
      | ok a => simp
  | succ fuel ih =>
    unfold probeAux
    split
    · simp
    · cases h1 : fetch nxt cur with
      | err e1 => exact absurd h1 (fetch_ne_err _ _ _)
      | panic => simp
      | div => simp
      | ok a => simp [ih]

theorem probeAll_ne_err (nxt : List ℕ) (len : ℕ) (l : List ℕ) (e : MeshError) :
    probeAll nxt len l ≠ .err e := by
  induction l with
  | nil => simp [probeAll]
  | cons o os ih =>
    unfold probeAll probeOne
    cases h1 : fetch nxt o with
    | err e1 => exact absurd h1 (fetch_ne_err _ _ _)
    | panic => simp
    | div => simp
    | ok c =>
      simp only [RRes.bind_ok]
      cases h2 : probeAux nxt o len c with
      | err e2 => exact absurd h2 (probeAux_ne_err _ _ _ _ _)
      | panic => simp
      | div => simp
      | ok u => simp [ih]

theorem checkOwn_err_shape {par : List ℕ} {p : ℕ} {l : List ℕ} {e : MeshError}
    (h : checkOwn par p l = .err e) : ∃ a b c, e = .ParentNotCorrect a b c := by
  induction l with
  | nil => simp [checkOwn] at h
  | cons x xs ih =>
    unfold checkOwn at h
    cases h1 : fetch par x with
    | err e1 => exact absurd h1 (fetch_ne_err _ _ _)
    | panic => rw [h1] at h; simp at h
    | div => rw [h1] at h; simp at h
    | ok q =>
      rw [h1] at h
      simp only [RRes.bind_ok] at h
      split at h
      · exact ⟨p, x, q, by simpa using h.symm⟩
      · exact ih h

theorem checkParents_err_shape {m : Base2DMesh} {l : List ℕ} {e : MeshError}
    (h : checkParents m l = .err e) : ∃ a b c, e = .ParentNotCorrect a b c := by
  induction l with
  | nil => simp [checkParents] at h
  | cons p ps ih =>
    unfold checkParents at h
    cases h1 : m.heFromParent p with
    | err e1 => exact absurd h1 (heFromParent_ne_err _ _ _)
    | panic => rw [h1] at h; simp at h
    | div => rw [h1] at h; simp at h
    | ok cyc =>
      rw [h1] at h
      simp only [RRes.bind_ok] at h
      cases h2 : checkOwn m.he_to_parent p cyc with
      | err e2 =>
        rw [h2] at h
        simp only [RRes.bind_err] at h
        cases h
        exact checkOwn_err_shape h2
      | panic => rw [h2] at h; simp at h
      | div => rw [h2] at h; simp at h
      | ok u =>
        rw [h2] at h
        simp only [RRes.bind_ok] at h
        exact ih h

/-- Shared helper: `check_mesh` never produces the `WrongHalfEdgeLoop`
error.  The loop-probing pass of the source traverses every cycle but
contains no `return Err(...)` — its counter is computed and discarded — and
every other pass produces a different error constructor. -/
theorem checkMesh_no_loop_err (m : Base2DMesh) (he : ℕ) :
    checkMesh m ≠ .err (.WrongHalfEdgeLoop he) := by
  unfold checkMesh
  split
  case isFalse => simp
  split
  case isFalse => simp
  split
  case isFalse => simp
  split
  case isFalse => simp
  intro h
  cases h1 : checkIdxList MeshError.VertexIndexOutOfBound m.vertices.length m.he_to_vertex with
  | err e1 =>
    rw [h1] at h; simp only [RRes.bind_err] at h; cases h
    obtain ⟨a, b, hab⟩ := checkIdxList_err_shape h1
    exact absurd hab (by simp)
  | panic => rw [h1] at h; simp at h
  | div => rw [h1] at h; simp at h
  | ok u1 =>
  rw [h1] at h; simp only [RRes.bind_ok] at h
  cases h2 : checkIdxList MeshError.HalfEdgeIndexOutOfBound m.he_to_vertex.length m.he_to_twin with
  | err e2 =>
    rw [h2] at h; simp only [RRes.bind_err] at h; cases h
    obtain ⟨a, b, hab⟩ := checkIdxList_err_shape h2
    exact absurd hab (by simp)
  | panic => rw [h2] at h; simp at h
  | div => rw [h2] at h; simp at h
  | ok u2 =>
  rw [h2] at h; simp only [RRes.bind_ok] at h
  cases h3 : checkTwinTwin m.he_to_twin m.he_to_twin 0 with
  | err e3 =>
    rw [h3] at h; simp only [RRes.bind_err] at h; cases h
    obtain ⟨a, b, c, habc⟩ := checkTwinTwin_err_shape h3
    exact absurd habc (by simp)
  | panic => rw [h3] at h; simp at h
  | div => rw [h3] at h; simp at h
  | ok u3 =>
  rw [h3] at h; simp only [RRes.bind_ok] at h
  cases h4 : checkIdxList MeshError.HalfEdgeIndexOutOfBound m.he_to_vertex.length m.he_to_next_he with
  | err e4 =>
    rw [h4] at h; simp only [RRes.bind_err] at h; cases h
    obtain ⟨a, b, hab⟩ := checkIdxList_err_shape h4
    exact absurd hab (by simp)
  | panic => rw [h4] at h; simp at h
  | div => rw [h4] at h; simp at h
  | ok u4 =>
  rw [h4] at h; simp only [RRes.bind_ok] at h
  cases h5 : checkIdxList MeshError.HalfEdgeIndexOutOfBound m.he_to_vertex.length m.he_to_prev_he with
  | err e5 =>
    rw [h5] at h; simp only [RRes.bind_err] at h; cases h
    obtain ⟨a, b, hab⟩ := checkIdxList_err_shape h5
    exact absurd hab (by simp)
  | panic => rw [h5] at h; simp at h
  | div => rw [h5] at h; simp at h
  | ok u5 =>
  rw [h5] at h; simp only [RRes.bind_ok] at h
  cases h6 : checkNextPrev m.he_to_prev_he m.he_to_next_he 0 with
  | err e6 =>
    rw [h6] at h; simp only [RRes.bind_err] at h; cases h
    obtain ⟨a, b, c, habc⟩ := checkNextPrev_err_shape h6
    exact absurd habc (by simp)
  | panic => rw [h6] at h; simp at h
  | div => rw [h6] at h; simp at h
  | ok u6 =>
  rw [h6] at h; simp only [RRes.bind_ok] at h
  cases h7 : probeAll m.he_to_next_he m.he_to_vertex.length (List.range m.he_to_vertex.length) with
  | err e7 => exact absurd h7 (probeAll_ne_err _ _ _ _)
  | panic => rw [h7] at h; simp at h
  | div => rw [h7] at h; simp at h
  | ok u7 =>
  rw [h7] at h; simp only [RRes.bind_ok] at h
  cases h8 : checkIdxList MeshError.ParentIndexOutOfBound m.parents.length m.he_to_parent with
  | err e8 =>
    rw [h8] at h; simp only [RRes.bind_err] at h; cases h
    obtain ⟨a, b, hab⟩ := checkIdxList_err_shape h8
    exact absurd hab (by simp)
  | panic => rw [h8] at h; simp at h
  | div => rw [h8] at h; simp at h
  | ok u8 =>
  rw [h8] at h; simp only [RRes.bind_ok] at h
  obtain ⟨a, b, c, habc⟩ := checkParents_err_shape h
  exact absurd habc (by simp)

end CheckErrShapes

section ClaimC2

/-- C2, counterexample.  The claim asserts the existence of a mesh on which
`check_mesh` returns `WrongHalfEdgeLoop`; no mesh (whatever other
conditions it satisfies) can make `check_mesh` return that error. -/
theorem C2_counterexample :
    ¬ ∃ (m : Base2DMesh) (he : ℕ), checkMesh m = .err (.WrongHalfEdgeLoop he) := by
  rintro ⟨m, he, h⟩
  exact checkMesh_no_loop_err m he h

/-- C2, amended.  `check_mesh` never returns `WrongHalfEdgeLoop`: its
cycle-traversal loop bounds the walk by the half-edge count but discards
the counter and returns no error (and a mesh with a non-closing next-cycle
is already rejected by the preceding `NextPrevNotCorrect` check, since
`prev ∘ next = id` forces `next` to be a permutation). -/
theorem C2_amended_check_never_wrong_loop (m : Base2DMesh) (he : ℕ) :
    checkMesh m ≠ .err (.WrongHalfEdgeLoop he) :=
  checkMesh_no_loop_err m he

end ClaimC2

section CheckOkFacts

open Base2DMesh

theorem checkIdxList_ok {mk : ℕ → ℕ → MeshError} {n : ℕ} {l : List ℕ}
    (h : checkIdxList mk n l = .ok ()) : ∀ x ∈ l, x < n := by
  induction l with
  | nil => simp
  | cons x xs ih =>
    unfold checkIdxList at h
    split at h
    · simp at h
    · intro y hy
      rcases List.mem_cons.mp hy with rfl | hmem
      · omega
      · exact ih h y hmem

theorem checkTwinTwin_ok {twinAll : List ℕ} {l : List ℕ} {i : ℕ}
    (h : checkTwinTwin twinAll l i = .ok ()) :
    ∀ j (hj : j < l.length), twinAll[l[j]]? = some (i + j) := by
  induction l generalizing i with
  | nil => simp
  | cons x xs ih =>
    unfold checkTwinTwin at h
    cases h1 : fetch twinAll x with
    | err e1 => exact absurd h1 (fetch_ne_err _ _ _)
    | panic => rw [h1] at h; simp at h
    | div => rw [h1] at h; simp at h
    | ok tt =>
      rw [h1] at h
      simp only [RRes.bind_ok] at h
      split at h
      · simp at h
      · rename_i heq
        intro j hj
        cases j with
        | zero =>
          simp only [List.getElem_cons_zero, Nat.add_zero]
          have : tt = i := by omega
          subst this
          exact fetch_ok_iff.mp h1
        | succ j =>
          have hadd : i + (j + 1) = i + 1 + j := by omega
          rw [List.getElem_cons_succ, hadd]
          exact ih h j (by simpa using hj)

theorem checkNextPrev_ok {prevAll : List ℕ} {l : List ℕ} {i : ℕ}
    (h : checkNextPrev prevAll l i = .ok ()) :
    ∀ j (hj : j < l.length), prevAll[l[j]]? = some (i + j) := by
  induction l generalizing i with
  | nil => simp
  | cons x xs ih =>
    unfold checkNextPrev at h
    cases h1 : fetch prevAll x with
    | err e1 => exact absurd h1 (fetch_ne_err _ _ _)
    | panic => rw [h1] at h; simp at h
    | div => rw [h1] at h; simp at h
    | ok pv =>
      rw [h1] at h
      simp only [RRes.bind_ok] at h
      split at h
      · simp at h
      · rename_i heq
        intro j hj
        cases j with
        | zero =>
          simp only [List.getElem_cons_zero, Nat.add_zero]
          have : i = pv := by omega
          subst this
          exact fetch_ok_iff.mp h1
        | succ j =>
          have hadd : i + (j + 1) = i + 1 + j := by omega
          rw [List.getElem_cons_succ, hadd]
          exact ih h j (by simpa using hj)

theorem checkParents_ok {m : Base2DMesh} {l : List ℕ}
    (h : checkParents m l = .ok ()) :
    ∀ p ∈ l, ∃ cyc, m.heFromParent p = .ok cyc ∧ checkOwn m.he_to_parent p cyc = .ok () := by
  induction l with
  | nil => simp
  | cons p ps ih =>
    unfold checkParents at h
    cases h1 : m.heFromParent p with
    | err e1 => exact absurd h1 (heFromParent_ne_err _ _ _)
    | panic => rw [h1] at h; simp at h
    | div => rw [h1] at h; simp at h
    | ok cyc =>
      rw [h1] at h
      simp only [RRes.bind_ok] at h
      cases h2 : checkOwn m.he_to_parent p cyc with
      | err e2 => rw [h2] at h; simp at h
      | panic => rw [h2] at h; simp at h
      | div => rw [h2] at h; simp at h
      | ok u =>
        rw [h2] at h
        simp only [RRes.bind_ok] at h
        intro q hq
        rcases List.mem_cons.mp hq with rfl | hmem
        · exact ⟨cyc, h1, by cases u; exact h2⟩
        · exact ih h q hmem

theorem checkOwn_ok {par : List ℕ} {p : ℕ} {l : List ℕ}
    (h : checkOwn par p l = .ok ()) : ∀ he ∈ l, par[he]? = some p := by
  induction l with
  | nil => simp
  | cons x xs ih =>
    unfold checkOwn at h
    cases h1 : fetch par x with
    | err e1 => exact absurd h1 (fetch_ne_err _ _ _)
    | panic => rw [h1] at h; simp at h
    | div => rw [h1] at h; simp at h
    | ok q =>
      rw [h1] at h
      simp only [RRes.bind_ok] at h
      split at h
      · simp at h
      · rename_i heq
        intro y hy
        rcases List.mem_cons.mp hy with rfl | hmem
        · have : q = p := by omega
          subst this
          exact fetch_ok_iff.mp h1
        · exact ih h y hmem

/-- The facts `check_mesh = Ok` guarantees, bundled. -/
structure ChkFacts (m : Base2DMesh) : Prop where
  len_next : m.he_to_next_he.length = m.he_to_twin.length
  len_prev : m.he_to_prev_he.length = m.he_to_twin.length
  len_vertex : m.he_to_vertex.length = m.he_to_twin.length
  len_parent : m.he_to_parent.length = m.he_to_twin.length
  vert_lt : ∀ x ∈ m.he_to_vertex, x < m.vertices.length
  twin_lt : ∀ x ∈ m.he_to_twin, x < m.he_to_vertex.length
  next_lt : ∀ x ∈ m.he_to_next_he, x < m.he_to_vertex.length
  prev_lt : ∀ x ∈ m.he_to_prev_he, x < m.he_to_vertex.length
  par_lt : ∀ x ∈ m.he_to_parent, x < m.parents.length
  twin_twin : ∀ j (hj : j < m.he_to_twin.length),
    m.he_to_twin[m.he_to_twin[j]]? = some j
  next_prev : ∀ j (hj : j < m.he_to_next_he.length),
    m.he_to_prev_he[m.he_to_next_he[j]]? = some j
  parent_cycles : ∀ p < m.parents.length,
    ∃ cyc, m.heFromParent p = .ok cyc ∧ checkOwn m.he_to_parent p cyc = .ok ()

theorem checkMesh_ok_facts {m : Base2DMesh} (h : checkMesh m = .ok ()) : ChkFacts m := by
  unfold checkMesh at h
  split at h
  case isFalse => simp at h
  split at h
  case isFalse => simp at h
  split at h
  case isFalse => simp at h
  split at h
  case isFalse => simp at h
  rename_i hl1 hl2 hl3 hl4
  cases h1 : checkIdxList MeshError.VertexIndexOutOfBound m.vertices.length m.he_to_vertex with
  | err e1 => rw [h1] at h; simp at h
  | panic => rw [h1] at h; simp at h
  | div => rw [h1] at h; simp at h
  | ok u1 =>
  rw [h1] at h; simp only [RRes.bind_ok] at h
  cases h2 : checkIdxList MeshError.HalfEdgeIndexOutOfBound m.he_to_vertex.length m.he_to_twin with
  | err e2 => rw [h2] at h; simp at h
  | panic => rw [h2] at h; simp at h
  | div => rw [h2] at h; simp at h
  | ok u2 =>
  rw [h2] at h; simp only [RRes.bind_ok] at h
  cases h3 : checkTwinTwin m.he_to_twin m.he_to_twin 0 with
  | err e3 => rw [h3] at h; simp at h
  | panic => rw [h3] at h; simp at h
  | div => rw [h3] at h; simp at h
  | ok u3 =>
  rw [h3] at h; simp only [RRes.bind_ok] at h
  cases h4 : checkIdxList MeshError.HalfEdgeIndexOutOfBound m.he_to_vertex.length m.he_to_next_he with
  | err e4 => rw [h4] at h; simp at h
  | panic => rw [h4] at h; simp at h
  | div => rw [h4] at h; simp at h
  | ok u4 =>
  rw [h4] at h; simp only [RRes.bind_ok] at h
  cases h5 : checkIdxList MeshError.HalfEdgeIndexOutOfBound m.he_to_vertex.length m.he_to_prev_he with
  | err e5 => rw [h5] at h; simp at h
  | panic => rw [h5] at h; simp at h
  | div => rw [h5] at h; simp at h
  | ok u5 =>
  rw [h5] at h; simp only [RRes.bind_ok] at h
  cases h6 : checkNextPrev m.he_to_prev_he m.he_to_next_he 0 with
  | err e6 => rw [h6] at h; simp at h
  | panic => rw [h6] at h; simp at h
  | div => rw [h6] at h; simp at h
  | ok u6 =>
  rw [h6] at h; simp only [RRes.bind_ok] at h
  cases h7 : probeAll m.he_to_next_he m.he_to_vertex.length (List.range m.he_to_vertex.length) with
  | err e7 => rw [h7] at h; simp at h
  | panic => rw [h7] at h; simp at h
  | div => rw [h7] at h; simp at h
  | ok u7 =>
  rw [h7] at h; simp only [RRes.bind_ok] at h
  cases h8 : checkIdxList MeshError.ParentIndexOutOfBound m.parents.length m.he_to_parent with
  | err e8 => rw [h8] at h; simp at h
  | panic => rw [h8] at h; simp at h
  | div => rw [h8] at h; simp at h
  | ok u8 =>
  rw [h8] at h; simp only [RRes.bind_ok] at h
  cases u1; cases u2; cases u3; cases u4; cases u5; cases u6; cases u7; cases u8
  refine ⟨hl1, hl2, hl3, hl4, checkIdxList_ok h1, checkIdxList_ok h2, checkIdxList_ok h4,
    checkIdxList_ok h5, checkIdxList_ok h8, ?_, ?_, ?_⟩
  · intro j hj
    have := checkTwinTwin_ok h3 j hj
    simpa using this
  · intro j hj
    have := checkNextPrev_ok h6 j hj
    simpa using this
  · intro p hp
    exact checkParents_ok h p (List.mem_range.mpr hp)

end CheckOkFacts

section ChkCorollaries

open Base2DMesh

variable {m : Base2DMesh}

theorem ChkFacts.next_len (F : ChkFacts m) : m.he_to_next_he.length = m.heLen := by
  rw [F.len_next, Base2DMesh.heLen, F.len_vertex]

theorem ChkFacts.prev_len (F : ChkFacts m) : m.he_to_prev_he.length = m.heLen := by
  rw [F.len_prev, Base2DMesh.heLen, F.len_vertex]

theorem ChkFacts.twin_len (F : ChkFacts m) : m.he_to_twin.length = m.heLen := by
  rw [Base2DMesh.heLen, F.len_vertex]

theorem ChkFacts.parent_len (F : ChkFacts m) : m.he_to_parent.length = m.heLen := by
  rw [F.len_parent, Base2DMesh.heLen, F.len_vertex]

theorem ChkFacts.nextD_lt (F : ChkFacts m) {h : ℕ} (hh : h < m.heLen) :
    m.nextD h < m.heLen := by
  have hl : h < m.he_to_next_he.length := by rw [F.next_len]; exact hh
  rw [Base2DMesh.nextD, List.getD_eq_getElem _ _ hl]
  exact F.next_lt _ (List.getElem_mem hl)

theorem ChkFacts.prevD_lt (F : ChkFacts m) {h : ℕ} (hh : h < m.heLen) :
    m.prevD h < m.heLen := by
  have hl : h < m.he_to_prev_he.length := by rw [F.prev_len]; exact hh
  rw [Base2DMesh.prevD, List.getD_eq_getElem _ _ hl]
  exact F.prev_lt _ (List.getElem_mem hl)

theorem ChkFacts.twinD_lt (F : ChkFacts m) {h : ℕ} (hh : h < m.heLen) :
    m.twinD h < m.heLen := by
  have hl : h < m.he_to_twin.length := by rw [F.twin_len]; exact hh
  rw [Base2DMesh.twinD, List.getD_eq_getElem _ _ hl]
  exact F.twin_lt _ (List.getElem_mem hl)

theorem ChkFacts.vertD_lt (F : ChkFacts m) {h : ℕ} (hh : h < m.heLen) :
    m.vertD h < m.vertices.length := by
  have hl : h < m.he_to_vertex.length := hh
  rw [Base2DMesh.vertD, List.getD_eq_getElem _ _ hl]
  exact F.vert_lt _ (List.getElem_mem hl)

theorem ChkFacts.parD_lt (F : ChkFacts m) {h : ℕ} (hh : h < m.heLen) :
    m.parD h < m.parents.length := by
  have hl : h < m.he_to_parent.length := by rw [F.parent_len]; exact hh
  rw [Base2DMesh.parD, List.getD_eq_getElem _ _ hl]
  exact F.par_lt _ (List.getElem_mem hl)

/-- `prev(next(h)) = h` in total-read form. -/
theorem ChkFacts.prevD_nextD (F : ChkFacts m) {h : ℕ} (hh : h < m.heLen) :
    m.prevD (m.nextD h) = h := by
  have hl : h < m.he_to_next_he.length := by rw [F.next_len]; exact hh
  have := F.next_prev h hl
  rw [Base2DMesh.prevD, Base2DMesh.nextD, List.getD_eq_getElem _ _ hl,
    List.getD_eq_getElem?_getD, this]
  rfl

/-- `twin(twin(h)) = h` in total-read form. -/
theorem ChkFacts.twinD_twinD (F : ChkFacts m) {h : ℕ} (hh : h < m.heLen) :
    m.twinD (m.twinD h) = h := by
  have hl : h < m.he_to_twin.length := by rw [F.twin_len]; exact hh
  have := F.twin_twin h hl
  rw [Base2DMesh.twinD, Base2DMesh.twinD, List.getD_eq_getElem _ _ hl,
    List.getD_eq_getElem?_getD, this]
  rfl

theorem ChkFacts.nextD_inj (F : ChkFacts m) {a b : ℕ} (ha : a < m.heLen)
    (hb : b < m.heLen) (h : m.nextD a = m.nextD b) : a = b := by
  have := F.prevD_nextD ha
  rw [h, F.prevD_nextD hb] at this
  exact this.symm

theorem ChkFacts.nextD_surj (F : ChkFacts m) {y : ℕ} (hy : y < m.heLen) :
    ∃ x, x < m.heLen ∧ m.nextD x = y := by
  rcases Nat.eq_zero_or_pos m.heLen with h0 | hpos
  · omega
  · let φ : Fin m.heLen → Fin m.heLen := fun i => ⟨m.nextD i, F.nextD_lt i.2⟩
    have hinj : Function.Injective φ := by
      intro a b hab
      have : m.nextD a = m.nextD b := congrArg Fin.val hab
      exact Fin.val_injective (F.nextD_inj a.2 b.2 this)
    obtain ⟨x, hx⟩ := Finite.injective_iff_surjective.mp hinj ⟨y, hy⟩
    exact ⟨x.1, x.2, congrArg Fin.val hx⟩

theorem ChkFacts.nextD_prevD (F : ChkFacts m) {y : ℕ} (hy : y < m.heLen) :
    m.nextD (m.prevD y) = y := by
  obtain ⟨x, hx, hxy⟩ := F.nextD_surj hy
  have : m.prevD y = x := by rw [← hxy, F.prevD_nextD hx]
  rw [this, hxy]

theorem ChkFacts.iterate_nextD_lt (F : ChkFacts m) {h : ℕ} (hh : h < m.heLen) :
    ∀ k, (m.nextD)^[k] h < m.heLen := by
  intro k
  induction k with
  | zero => simpa
  | succ k ih =>
    rw [Function.iterate_succ_apply']
    exact F.nextD_lt ih

end ChkCorollaries

section IterateReturn

/-- Left-cancellation of iterates of an injective-on-range self-map. -/
theorem iterate_cancel_of_inj (f : ℕ → ℕ) (n : ℕ)
    (hinj : ∀ a, a < n → ∀ b, b < n → f a = f b → a = b)
    (x : ℕ) (hiter : ∀ j, f^[j] x < n) :
    ∀ i j, i ≤ j → f^[i] x = f^[j] x → f^[j - i] x = x := by
  intro i
  induction i with
  | zero =>
    intro j _ h
    simpa using h.symm
  | succ i ih =>
    intro j hij h
    cases j with
    | zero => omega
    | succ j =>
      rw [Function.iterate_succ_apply', Function.iterate_succ_apply'] at h
      have := hinj _ (hiter i) _ (hiter j) h
      have := ih j (by omega) this
      simpa using this

/-- Pigeonhole: following an in-range-injective self-map from any point of
`[0, n)` returns to the start within `n` steps. -/
theorem exists_return_of_inj (f : ℕ → ℕ) (n : ℕ)
    (hrange : ∀ x, x < n → f x < n)
    (hinj : ∀ a, a < n → ∀ b, b < n → f a = f b → a = b)
    (x : ℕ) (hx : x < n) : ∃ k, 1 ≤ k ∧ k ≤ n ∧ f^[k] x = x := by
  have hiter : ∀ j, f^[j] x < n := by
    intro j
    induction j with
    | zero => simpa
    | succ j ih =>
      rw [Function.iterate_succ_apply']
      exact hrange _ ih
  let φ : Fin (n + 1) → Fin n := fun j => ⟨f^[j.1] x, hiter j.1⟩
  obtain ⟨a, b, hne, heq⟩ := Fintype.exists_ne_map_eq_of_card_lt φ (by simp)
  have hval : f^[a.1] x = f^[b.1] x := congrArg Fin.val heq
  have hvne : a.1 ≠ b.1 := fun h => hne (Fin.val_injective h)
  rcases Nat.lt_or_ge a.1 b.1 with hab | hab
  · refine ⟨b.1 - a.1, by omega, by omega, ?_⟩
    exact iterate_cancel_of_inj f n hinj x hiter a.1 b.1 (by omega) hval
  · have hba : b.1 < a.1 := by omega
    refine ⟨a.1 - b.1, by omega, by omega, ?_⟩
    exact iterate_cancel_of_inj f n hinj x hiter b.1 a.1 (by omega) hval.symm

end IterateReturn

section HeFromParentChar

open Base2DMesh

variable {m : Base2DMesh}

/-- On a mesh passing `check_mesh`, the collecting loop of `he_from_parent`
started at step `j` of the `next`-orbit of `first` returns the remaining
orbit prefix, provided the orbit first returns to `first` at step `d` and
the fuel covers the remaining steps. -/
theorem heFromParentAux_orbit (F : ChkFacts m) {first d : ℕ}
    (hfirst : first < m.heLen)
    (hdle : d ≤ m.heLen)
    (hret : (m.nextD)^[d] first = first)
    (hmin : ∀ i, 1 ≤ i → i < d → (m.nextD)^[i] first ≠ first) :
    ∀ fuel j acc, 1 ≤ j → j ≤ d → d - j ≤ fuel →
      heFromParentAux m.he_to_next_he first fuel acc ((m.nextD)^[j] first) =
        .ok (acc.reverse ++ (List.range (d - j)).map (fun i => (m.nextD)^[j + i] first)) := by
  intro fuel
  induction fuel with
  | zero =>
    intro j acc hj1 hjd hfuel
    have hjd' : j = d := by omega
    subst hjd'
    unfold heFromParentAux
    rw [hret]
    simp
  | succ fuel ih =>
    intro j acc hj1 hjd hfuel
    rcases Nat.eq_or_lt_of_le hjd with hjd' | hjlt
    · subst hjd'
      unfold heFromParentAux
      rw [hret]
      simp
    · have hne : (m.nextD)^[j] first ≠ first := hmin j hj1 hjlt
      have hcur : (m.nextD)^[j] first < m.heLen := F.iterate_nextD_lt hfirst j
      have hcurl : (m.nextD)^[j] first < m.he_to_next_he.length := by
        rw [F.next_len]; exact hcur
      unfold heFromParentAux
      rw [if_neg hne, fetch_eq_ok hcurl]
      simp only [RRes.bind_ok]
      have hstep : m.he_to_next_he[(m.nextD)^[j] first] = (m.nextD)^[j + 1] first := by
        rw [Function.iterate_succ_apply', Base2DMesh.nextD, List.getD_eq_getElem _ _ hcurl]
      rw [hstep]
      have := ih (j + 1) ((m.nextD)^[j] first :: acc) (by omega) hjlt (by omega)
      rw [this]
      congr 1
      rw [List.reverse_cons, List.append_assoc]
      congr 1
      have hd : d - j = (d - (j + 1)) + 1 := by omega
      rw [hd, List.range_succ_eq_map, List.map_cons, List.map_map]
      simp only [Nat.add_zero, List.singleton_append]
      congr 1
      apply List.map_congr_left
      intro i _
      simp only [Function.comp_apply]
      congr 1
      omega

/-- On a mesh passing `check_mesh`, every successful `he_from_parent` call
returns exactly the `next`-orbit of its first half-edge up to the first
return, whose length is the return time `d ≤ he_len`. -/
theorem heFromParent_ok_length (F : ChkFacts m) {p : ℕ} {cyc : List ℕ}
    (h : m.heFromParent p = .ok cyc) : cyc.length ≤ m.heLen := by
  unfold Base2DMesh.heFromParent at h
  cases h1 : fetch m.parent_to_first_he p with
  | err e1 => exact absurd h1 (fetch_ne_err _ _ _)
  | panic => rw [h1] at h; simp at h
  | div => rw [h1] at h; simp at h
  | ok first =>
  rw [h1] at h; simp only [RRes.bind_ok] at h
  cases h2 : fetch m.he_to_next_he first with
  | err e2 => exact absurd h2 (fetch_ne_err _ _ _)
  | panic => rw [h2] at h; simp at h
  | div => rw [h2] at h; simp at h
  | ok cur =>
  rw [h2] at h; simp only [RRes.bind_ok] at h
  have hfl : first < m.he_to_next_he.length := by
    by_contra hc
    rw [fetch_eq_panic (by omega)] at h2
    cases h2
  have hfirst : first < m.heLen := by rw [← F.next_len]; exact hfl
  have hcur : cur = (m.nextD)^[1] first := by
    rw [fetch_eq_ok hfl] at h2
    cases h2
    rw [Function.iterate_one, Base2DMesh.nextD, List.getD_eq_getElem _ _ hfl]
  have hex : ∃ k, 1 ≤ k ∧ k ≤ m.heLen ∧ (m.nextD)^[k] first = first := by
    refine exists_return_of_inj (m.nextD) m.heLen (fun x hx => F.nextD_lt hx)
      (fun a ha b hb hab => F.nextD_inj ha hb hab) first hfirst
  obtain ⟨k, hk1, hkn, hkret⟩ := hex
  have hPex : ∃ j, 1 ≤ j ∧ (m.nextD)^[j] first = first := ⟨k, hk1, hkret⟩
  let d := Nat.find hPex
  have hPd : 1 ≤ d ∧ (m.nextD)^[d] first = first := Nat.find_spec hPex
  have hdk : d ≤ k := Nat.find_le ⟨hk1, hkret⟩
  have hmin : ∀ i, 1 ≤ i → i < d → (m.nextD)^[i] first ≠ first := by
    intro i hi1 hid hieq
    exact Nat.find_min hPex hid ⟨hi1, hieq⟩
  have horb := heFromParentAux_orbit F hfirst (by omega) hPd.2 hmin m.heLen 1 [first]
    (by omega) hPd.1 (by omega)
  rw [hcur, horb] at h
  cases h
  simp only [List.length_append, List.length_map, List.length_range, List.reverse_cons,
    List.reverse_nil, List.nil_append, List.length_cons, List.length_nil]
  omega

end HeFromParentChar

section ClaimC3

open Base2DMesh

/-- The unit-square mesh with a third, garbage entry appended to
`parent_to_first_he` (beyond the two parents): `check_mesh` walks only
parents `0` and `1` and accepts the mesh. -/
def sqBad : Base2DMesh :=
  { sqMesh with parent_to_first_he := [1, 0, 99] }

/-- C3, counterexample.  The claim says `he_from_parent(p)` terminates with
at most `he_len()` half-edges for every `p` that has an entry in
`parent_to_first_he`.  On `sqBad`, which passes `check_mesh`, index `2` has
the entry `99` and `he_from_parent(2)` panics (out-of-bounds indexing)
instead of returning a list. -/
theorem C3_counterexample :
    checkMesh sqBad = .ok () ∧ 2 < sqBad.parent_to_first_he.length ∧
      Base2DMesh.heFromParent sqBad 2 = .panic := by
  refine ⟨by decide, by decide, by decide⟩

/-- C3, amended.  On every mesh accepted by `check_mesh`: following `next`
from any half-edge returns to it within `he_len` steps, and
`he_from_parent(p)` returns a list of at most `he_len` half-edges for every
parent index `p < parents_len()` (rather than for every index with an entry
in `parent_to_first_he`). -/
theorem C3_amended_cycles_close (m : Base2DMesh) (hchk : checkMesh m = .ok ()) :
    (∀ h < m.heLen, ∃ k, 1 ≤ k ∧ k ≤ m.heLen ∧ (m.nextD)^[k] h = h) ∧
    (∀ p < m.parents.length,
      ∃ cyc, m.heFromParent p = .ok cyc ∧ cyc.length ≤ m.heLen) := by
  have F := checkMesh_ok_facts hchk
  constructor
  · intro h hh
    exact exists_return_of_inj (m.nextD) m.heLen (fun x hx => F.nextD_lt hx)
      (fun a ha b hb hab => F.nextD_inj ha hb hab) h hh
  · intro p hp
    obtain ⟨cyc, hcyc, _⟩ := F.parent_cycles p hp
    exact ⟨cyc, hcyc, heFromParent_ok_length F hcyc⟩

/-- Witness for C3 on the unit-square mesh. -/
theorem C3_witness :
    (∃ k, 1 ≤ k ∧ k ≤ Base2DMesh.heLen sqMesh ∧ (Base2DMesh.nextD sqMesh)^[k] 0 = 0) ∧
    (∃ cyc, Base2DMesh.heFromParent sqMesh 0 = .ok cyc ∧
      cyc.length ≤ Base2DMesh.heLen sqMesh) := by
  obtain ⟨h1, h2⟩ := C3_amended_cycles_close sqMesh (by decide)
  exact ⟨h1 0 (by decide), h2 0 (by decide)⟩

end ClaimC3

section NoErrInfra

/-- A stateful computation that can return normally or panic but never
produce a typed `MeshError`. -/
def NoErr (x : StM α) : Prop := ∀ s e, (x s).1 ≠ RRes.err e

theorem NoErr.bindStep {x : StM α} {f : α → StM β} (hx : NoErr x)
    (hf : ∀ a, NoErr (f a)) : NoErr (x >>= f) := by
  intro s e hc
  rw [bind_run] at hc
  rcases hxs : x s with ⟨r, s1⟩
  rw [hxs] at hc
  cases r with
  | ok a => exact hf a s1 e hc
  | err e1 =>
    simp only at hc
    cases hc
    exact hx s e (by rw [hxs])
  | panic => simp at hc
  | div => simp at hc

theorem NoErr.mgetP : NoErr mget := by intro s e; simp

theorem NoErr.pureP (a : α) : NoErr (pure a : StM α) := by intro s e; simp

theorem NoErr.readLP (proj : Base2DMesh → List α) (i : ℕ) : NoErr (readL proj i) := by
  intro s e
  simp only [readL_run]
  exact fetch_ne_err _ _ _

theorem NoErr.writeTwinP (i x : ℕ) : NoErr (writeTwin i x) := by
  intro s e
  unfold writeTwin
  cases h : setF s.he_to_twin i x <;> simp

theorem NoErr.writeNextP (i x : ℕ) : NoErr (writeNext i x) := by
  intro s e
  unfold writeNext
  cases h : setF s.he_to_next_he i x <;> simp

theorem NoErr.writePrevP (i x : ℕ) : NoErr (writePrev i x) := by
  intro s e
  unfold writePrev
  cases h : setF s.he_to_prev_he i x <;> simp

theorem NoErr.writeHeParentP (i x : ℕ) : NoErr (writeHeParent i x) := by
  intro s e
  unfold writeHeParent
  cases h : setF s.he_to_parent i x <;> simp

theorem NoErr.writeVertexPosP (i : ℕ) (p : Pt) : NoErr (writeVertexPos i p) := by
  intro s e
  unfold writeVertexPos
  cases h : setF s.vertices i p <;> simp

theorem NoErr.writeFirstHeP (i x : ℕ) : NoErr (writeFirstHe i x) := by
  intro s e
  unfold writeFirstHe
  cases h : setF s.parent_to_first_he i x <;> simp

theorem NoErr.pushP1 (x : ℕ) : NoErr (pushHeVertex x) := by intro s e; simp [pushHeVertex]

theorem NoErr.pushP2 (x : ℕ) : NoErr (pushTwin x) := by intro s e; simp [pushTwin]

theorem NoErr.pushP3 (x : ℕ) : NoErr (pushNext x) := by intro s e; simp [pushNext]

theorem NoErr.pushP4 (x : ℕ) : NoErr (pushPrev x) := by intro s e; simp [pushPrev]

theorem NoErr.pushP5 (x : ℕ) : NoErr (pushHeParent x) := by intro s e; simp [pushHeParent]

theorem NoErr.pushP6 (p : Pt) : NoErr (pushVertexPos p) := by intro s e; simp [pushVertexPos]

theorem NoErr.pushP7 (p : Parent) : NoErr (pushParent p) := by intro s e; simp [pushParent]

theorem NoErr.pushP8 (x : ℕ) : NoErr (pushFirstHe x) := by intro s e; simp [pushFirstHe]

theorem splitEdgeBody_no_err (heId : ℕ) (t : ℚ) : NoErr (splitEdgeBody heId t) := by
  unfold splitEdgeBody
  refine NoErr.bindStep NoErr.mgetP fun m => ?_
  refine NoErr.bindStep (NoErr.readLP _ _) fun ev0 => ?_
  refine NoErr.bindStep (NoErr.readLP _ _) fun tw0 => ?_
  refine NoErr.bindStep (NoErr.readLP _ _) fun ev1 => ?_
  refine NoErr.bindStep (NoErr.readLP _ _) fun p0 => ?_
  refine NoErr.bindStep (NoErr.readLP _ _) fun p1 => ?_
  refine NoErr.bindStep (NoErr.readLP _ _) fun heTwin => ?_
  refine NoErr.bindStep (NoErr.pushP6 _) fun u1 => ?_
  refine NoErr.bindStep NoErr.mgetP fun m1 => ?_
  refine NoErr.bindStep (NoErr.pushP1 _) fun u2 => ?_
  refine NoErr.bindStep (NoErr.pushP1 _) fun u3 => ?_
  refine NoErr.bindStep (NoErr.pushP2 _) fun u4 => ?_
  refine NoErr.bindStep (NoErr.pushP2 _) fun u5 => ?_
  refine NoErr.bindStep (NoErr.writeTwinP _ _) fun u6 => ?_
  refine NoErr.bindStep (NoErr.writeTwinP _ _) fun u7 => ?_
  refine NoErr.bindStep (NoErr.readLP _ _) fun nxt0 => ?_
  refine NoErr.bindStep (NoErr.writeNextP _ _) fun u8 => ?_
  refine NoErr.bindStep (NoErr.pushP3 _) fun u9 => ?_
  refine NoErr.bindStep (NoErr.writePrevP _ _) fun u10 => ?_
  refine NoErr.bindStep (NoErr.readLP _ _) fun nxt1 => ?_
  refine NoErr.bindStep (NoErr.writeNextP _ _) fun u11 => ?_
  refine NoErr.bindStep (NoErr.pushP3 _) fun u12 => ?_
  refine NoErr.bindStep (NoErr.writePrevP _ _) fun u13 => ?_
  refine NoErr.bindStep (NoErr.pushP4 _) fun u14 => ?_
  refine NoErr.bindStep (NoErr.pushP4 _) fun u15 => ?_
  refine NoErr.bindStep (NoErr.readLP _ _) fun par0 => ?_
  refine NoErr.bindStep (NoErr.pushP5 _) fun u16 => ?_
  refine NoErr.bindStep (NoErr.readLP _ _) fun par1 => ?_
  exact NoErr.pushP5 _

end NoErrInfra

section ClaimC5

open Base2DMesh

/-- C5.  `split_edge(h, t)` returns `HalfEdgeOutOfBound` exactly when
`h ≥ he_len()`; for `h` in range it returns `WrongFloatValue` exactly when
`t` lies outside the open interval `(0, 1)` (in particular for `t = 0` and
`t = 1`); and any error leaves the mesh unchanged — both errors are decided
before the first mutation, and the mutation tail can produce no further
typed error. -/
theorem C5_split_edge_error_contract (m : Base2DMesh) (h : ℕ) (t : ℚ) :
    (m.heLen ≤ h ↔ (splitEdge m h t).1 = .err (.HalfEdgeIndexOutOfBound h m.heLen)) ∧
    (h < m.heLen →
      ((1 ≤ t ∨ t ≤ 0) ↔ (splitEdge m h t).1 = .err (.WrongFloatValue t (0, 1)))) ∧
    (∀ e, (splitEdge m h t).1 = .err e →
      (splitEdge m h t).2 = m ∧
        (e = .HalfEdgeIndexOutOfBound h m.heLen ∨ e = .WrongFloatValue t (0, 1))) := by
  by_cases hle : m.heLen ≤ h
  · have hres : splitEdge m h t = (.err (.HalfEdgeIndexOutOfBound h m.heLen), m) := by
      unfold splitEdge splitEdgeM
      rw [bind_run, mget_run]
      simp only [if_pos hle, mthrow_run]
    refine ⟨⟨fun _ => by rw [hres], fun _ => hle⟩, fun hlt => absurd hlt (by omega), ?_⟩
    intro e he
    rw [hres] at he ⊢
    cases he
    exact ⟨rfl, Or.inl rfl⟩
  · have hlt : h < m.heLen := by omega
    by_cases ht : 1 ≤ t ∨ t ≤ 0
    · have hres : splitEdge m h t = (.err (.WrongFloatValue t (0, 1)), m) := by
        unfold splitEdge splitEdgeM
        rw [bind_run, mget_run]
        simp only [if_neg hle, if_pos ht, mthrow_run]
      refine ⟨⟨fun hc => absurd hc hle, fun hc => ?_⟩, fun _ => ⟨fun _ => by rw [hres], fun _ => ht⟩, ?_⟩
      · rw [hres] at hc
        cases hc
      · intro e he
        rw [hres] at he ⊢
        cases he
        exact ⟨rfl, Or.inr rfl⟩
    · have hres : splitEdge m h t = splitEdgeBody h t m := by
        unfold splitEdge splitEdgeM
        rw [bind_run, mget_run]
        simp only [if_neg hle, if_neg ht]
      have hnoerr : ∀ e, (splitEdge m h t).1 ≠ .err e := by
        intro e
        rw [hres]
        exact splitEdgeBody_no_err h t m e
      refine ⟨⟨fun hc => absurd hc hle, fun hc => absurd hc (hnoerr _)⟩,
        fun _ => ⟨fun hc => absurd hc ht, fun hc => absurd hc (hnoerr _)⟩, ?_⟩
      intro e he
      exact absurd he (hnoerr e)

/-- Witness for C5: on the unit-square mesh, an out-of-range half-edge and
the boundary ratios `t = 0` and `t = 1` produce exactly the claimed errors
with the mesh unchanged. -/
theorem C5_witness :
    (splitEdge sqMesh 99 (1 / 2)).1 = .err (.HalfEdgeIndexOutOfBound 99 8) ∧
    (splitEdge sqMesh 1 0).1 = .err (.WrongFloatValue 0 (0, 1)) ∧
    (splitEdge sqMesh 1 1).1 = .err (.WrongFloatValue 1 (0, 1)) ∧
    (splitEdge sqMesh 1 0).2 = sqMesh := by
  refine ⟨(C5_split_edge_error_contract sqMesh 99 (1 / 2)).1.mp (by decide),
    ((C5_split_edge_error_contract sqMesh 1 0).2.1 (by decide)).mp (by norm_num),
    ((C5_split_edge_error_contract sqMesh 1 1).2.1 (by decide)).mp (by norm_num),
    ?_⟩
  exact ((C5_split_edge_error_contract sqMesh 1 0).2.2 _
    (((C5_split_edge_error_contract sqMesh 1 0).2.1 (by decide)).mp (by norm_num))).1

end ClaimC5

section SplitCharacterization

open Base2DMesh

theorem fetch_eq_okD {l : List α} {i : ℕ} (h : i < l.length) (d : α) :
    fetch l i = .ok (l.getD i d) := by
  rw [fetch_eq_ok h, List.getD_eq_getElem _ _ h]

theorem getD_set_ne (l : List α) {i j : ℕ} (a d : α) (h : i ≠ j) :
    (l.set i a).getD j d = l.getD j d := by
  simp [List.getD_eq_getElem?_getD, List.getElem?_set_ne h]

theorem getD_append_left (l l2 : List α) {i : ℕ} (d : α) (h : i < l.length) :
    (l ++ l2).getD i d = l.getD i d := by
  simp [List.getD_eq_getElem?_getD, List.getElem?_append_left h]

theorem getD_set_eq (l : List α) {i : ℕ} (a d : α) (h : i < l.length) :
    (l.set i a).getD i d = a := by
  rw [List.getD_eq_getElem _ _ (by simpa using h), List.getElem_set_self]

theorem getD_append_two (l : List α) (a b d : α) :
    (l ++ [a, b]).getD l.length d = a := by
  simp [List.getD_eq_getElem?_getD, List.getElem?_append_right (Nat.le_refl l.length)]

theorem getD_append_two' (l : List α) (a b d : α) :
    (l ++ [a, b]).getD (l.length + 1) d = b := by
  simp [List.getD_eq_getElem?_getD,
    List.getElem?_append_right (show l.length ≤ l.length + 1 by omega)]

theorem getD_append_one (l : List α) (a d : α) :
    (l ++ [a]).getD l.length d = a := by
  simp [List.getD_eq_getElem?_getD, List.getElem?_append_right (Nat.le_refl l.length)]

/-- Explicit final state of a successful `split_edge` body. -/
def splitResult (m : Base2DMesh) (heId : ℕ) (t : ℚ) : Base2DMesh :=
  { he_to_vertex := m.he_to_vertex ++ [m.vertices.length, m.vertices.length],
    he_to_twin := ((m.he_to_twin ++ [m.twinD heId, heId]).set heId
        (m.he_to_twin.length + 1)).set (m.twinD heId) m.he_to_twin.length,
    he_to_next_he := ((m.he_to_next_he.set heId m.he_to_twin.length) ++
        [m.nextD heId]).set (m.twinD heId) (m.he_to_twin.length + 1) ++
        [m.nextD (m.twinD heId)],
    he_to_prev_he := ((m.he_to_prev_he.set (m.nextD heId) m.he_to_twin.length).set
        (m.nextD (m.twinD heId)) (m.he_to_twin.length + 1)) ++ [heId, m.twinD heId],
    he_to_parent := m.he_to_parent ++ [m.parD heId, m.parD (m.twinD heId)],
    vertices := m.vertices ++
      [lerp (m.vertices.getD (m.vertD heId) ⟨0, 0⟩) (m.vertices.getD (m.vertD (m.twinD heId)) ⟨0, 0⟩) t],
    parents := m.parents,
    parent_to_first_he := m.parent_to_first_he }

theorem splitEdgeBody_ok_char (m : Base2DMesh) (F : ChkFacts m) (heId : ℕ) (t : ℚ)
    (hlt : heId < m.heLen) (htw : m.twinD heId ≠ heId) :
    splitEdgeBody heId t m = (.ok (), splitResult m heId t) := by
  have hb1 : heId < m.he_to_vertex.length := hlt
  have hb2 : heId < m.he_to_twin.length := by rw [F.twin_len]; exact hlt
  have htwlt : m.twinD heId < m.heLen := F.twinD_lt hlt
  have hb3 : m.he_to_twin.getD heId 0 < m.he_to_vertex.length := htwlt
  have hb4 : m.he_to_vertex.getD heId 0 < m.vertices.length := F.vertD_lt hlt
  have hb5 : m.he_to_vertex.getD (m.he_to_twin.getD heId 0) 0 < m.vertices.length :=
    F.vertD_lt htwlt
  have hb6 : heId < m.he_to_next_he.length := by rw [F.next_len]; exact hlt
  have hnxt0 : m.he_to_next_he.getD heId 0 < m.he_to_vertex.length := F.nextD_lt hlt
  have hnxt1 : m.he_to_next_he.getD (m.he_to_twin.getD heId 0) 0 < m.he_to_vertex.length :=
    F.nextD_lt htwlt
  have hb8 : heId < m.he_to_parent.length := by rw [F.parent_len]; exact hlt
  have htwne : heId ≠ m.he_to_twin.getD heId 0 := fun hh => htw hh.symm
  unfold splitEdgeBody
  simp only [bind_run, mget_run, readL_run]
  rw [fetch_eq_okD hb1 0]
  try simp only []
  rw [fetch_eq_okD hb2 0]
  try simp only []
  rw [fetch_eq_okD hb3 0]
  try simp only []
  rw [fetch_eq_okD hb4 (⟨0, 0⟩ : Pt)]
  try simp only []
  rw [fetch_eq_okD hb5 (⟨0, 0⟩ : Pt)]
  try simp only []
  rw [fetch_eq_okD hb2 0]
  simp only [pushVertexPos]
  try simp only []
  have hlen_tv : m.he_to_vertex.length = m.he_to_twin.length := F.len_vertex
  have hlen_nv : m.he_to_next_he.length = m.he_to_vertex.length := by
    rw [F.len_next, ← F.len_vertex]
  have hlen_pv : m.he_to_prev_he.length = m.he_to_vertex.length := by
    rw [F.len_prev, ← F.len_vertex]
  have hlen_par : m.he_to_parent.length = m.he_to_vertex.length := by
    rw [F.len_parent, ← F.len_vertex]
  simp only [pushHeVertex, pushTwin]
  try simp only []
  simp only [writeTwin]
  have hsb1 : heId < (m.he_to_twin ++ [m.he_to_twin.getD heId 0] ++ [heId]).length := by
    simp only [List.length_append, List.length_cons, List.length_nil]
    omega
  have hsb2 : m.he_to_twin.getD heId 0 <
      ((m.he_to_twin ++ [m.he_to_twin.getD heId 0] ++ [heId]).set heId
        (m.he_to_twin.length + 1)).length := by
    simp only [List.length_set, List.length_append, List.length_cons, List.length_nil]
    omega
  rw [setF_eq_ok _ hsb1]
  try simp only []
  rw [setF_eq_ok _ hsb2]
  try simp only []
  rw [fetch_eq_okD hb6 0]
  try simp only []
  simp only [writeNext]
  rw [setF_eq_ok _ hb6]
  try simp only []
  simp only [pushNext]
  try simp only []
  simp only [writePrev]
  rw [setF_eq_ok _ (show m.he_to_next_he.getD heId 0 < m.he_to_prev_he.length by omega)]
  try simp only []
  have hv18 : ((m.he_to_next_he.set heId m.he_to_twin.length) ++
      [m.he_to_next_he.getD heId 0]).getD (m.he_to_twin.getD heId 0) 0 =
      m.he_to_next_he.getD (m.he_to_twin.getD heId 0) 0 := by
    rw [getD_append_left _ _ _ (by simp only [List.length_set]; omega)]
    rw [getD_set_ne _ _ _ htwne]
  have hsb3 : m.he_to_twin.getD heId 0 <
      ((m.he_to_next_he.set heId m.he_to_twin.length) ++
        [m.he_to_next_he.getD heId 0]).length := by
    simp only [List.length_append, List.length_set, List.length_cons, List.length_nil]
    omega
  rw [fetch_eq_okD hsb3 0, hv18]
  try simp only []
  have hsb4 : m.he_to_twin.getD heId 0 <
      ((m.he_to_next_he.set heId m.he_to_twin.length ++
        [m.he_to_next_he.getD heId 0]).set (m.he_to_twin.getD heId 0)
          (m.he_to_twin.length + 1)).length := by
    simp only [List.length_append, List.length_set, List.length_cons, List.length_nil]
    omega
  have hsb5 : m.he_to_next_he.getD (m.he_to_twin.getD heId 0) 0 <
      ((m.he_to_prev_he.set (m.he_to_next_he.getD heId 0) m.he_to_twin.length)).length := by
    simp only [List.length_set]
    omega
  rw [setF_eq_ok _ (show m.he_to_twin.getD heId 0 <
      (m.he_to_next_he.set heId m.he_to_twin.length ++
        [m.he_to_next_he.getD heId 0]).length from hsb3)]
  try simp only []
  rw [setF_eq_ok _ hsb5]
  try simp only []
  simp only [pushPrev]
  try simp only []
  rw [fetch_eq_okD hb8 0]
  try simp only []
  simp only [pushHeParent]
  try simp only []
  have hv25 : (m.he_to_parent ++ [m.he_to_parent.getD heId 0]).getD
      (m.he_to_twin.getD heId 0) 0 = m.he_to_parent.getD (m.he_to_twin.getD heId 0) 0 := by
    rw [getD_append_left _ _ _ (by omega)]
  have hsb6 : m.he_to_twin.getD heId 0 <
      (m.he_to_parent ++ [m.he_to_parent.getD heId 0]).length := by
    simp only [List.length_append, List.length_cons, List.length_nil]
    omega
  rw [fetch_eq_okD hsb6 0, hv25]
  try simp only []
  simp only [splitResult, Base2DMesh.twinD, Base2DMesh.nextD, Base2DMesh.vertD,
    Base2DMesh.parD]
  simp [List.append_assoc]

/-- C4.  On a mesh accepted by `check_mesh`, for a non-self-twin half-edge
`h` in range and a ratio strictly between `0` and `1`, `split_edge`
succeeds; exactly one vertex (the lerp of `h`'s endpoints by `t`) and
exactly two half-edges `h' = n` and `t' = n+1` are appended
(`n = he_len`); the twins are re-paired `twin(h) = t'`, `twin(t) = h'`,
`twin(h') = t`, `twin(t') = h`; `h'` and `t'` originate at the new vertex
(so `h` now ends there and `h'` runs to `h`'s original endpoint);
`next(h) = h'`, `next(h') = old next(h)`, mirrored on the twin side, with
`prev` updated consistently; `h'` and `t'` inherit the parents of `h` and
`t`; and every link of every other half-edge is unchanged. -/
theorem C4_split_edge_success (m : Base2DMesh) (heId : ℕ) (t : ℚ)
    (hchk : checkMesh m = .ok ()) (hlt : heId < m.heLen)
    (htw : m.twinD heId ≠ heId) (ht0 : 0 < t) (ht1 : t < 1) :
    ∃ m', splitEdge m heId t = (.ok (), m') ∧
      m'.vertices = m.vertices ++
        [lerp (m.vertices.getD (m.vertD heId) ⟨0, 0⟩)
          (m.vertices.getD (m.vertD (m.twinD heId)) ⟨0, 0⟩) t] ∧
      m'.heLen = m.heLen + 2 ∧
      m'.twinD heId = m.heLen + 1 ∧
      m'.twinD (m.twinD heId) = m.heLen ∧
      m'.twinD m.heLen = m.twinD heId ∧
      m'.twinD (m.heLen + 1) = heId ∧
      m'.vertD m.heLen = m.vertices.length ∧
      m'.vertD (m.heLen + 1) = m.vertices.length ∧
      m'.nextD heId = m.heLen ∧
      m'.nextD m.heLen = m.nextD heId ∧
      m'.nextD (m.twinD heId) = m.heLen + 1 ∧
      m'.nextD (m.heLen + 1) = m.nextD (m.twinD heId) ∧
      m'.prevD m.heLen = heId ∧
      m'.prevD (m.heLen + 1) = m.twinD heId ∧
      m'.prevD (m.nextD heId) = m.heLen ∧
      m'.prevD (m.nextD (m.twinD heId)) = m.heLen + 1 ∧
      m'.parD m.heLen = m.parD heId ∧
      m'.parD (m.heLen + 1) = m.parD (m.twinD heId) ∧
      (∀ k, k < m.heLen → m'.vertD k = m.vertD k) ∧
      (∀ k, k < m.heLen → k ≠ heId → k ≠ m.twinD heId →
        m'.twinD k = m.twinD k ∧ m'.nextD k = m.nextD k ∧ m'.parD k = m.parD k) ∧
      (∀ k, k < m.heLen → k ≠ m.nextD heId → k ≠ m.nextD (m.twinD heId) →
        m'.prevD k = m.prevD k) := by
  have F := checkMesh_ok_facts hchk
  have hle : ¬ m.heLen ≤ heId := by omega
  have hng : ¬ (1 ≤ t ∨ t ≤ 0) := by push_neg; exact ⟨by linarith, by linarith⟩
  have heq : splitEdge m heId t = (.ok (), splitResult m heId t) := by
    unfold splitEdge splitEdgeM
    rw [bind_run, mget_run]
    simp only [if_neg hle, if_neg hng]
    exact splitEdgeBody_ok_char m F heId t hlt htw
  have hTL : m.he_to_twin.length = m.heLen := F.twin_len
  have hNL : m.he_to_next_he.length = m.heLen := F.next_len
  have hPL : m.he_to_prev_he.length = m.heLen := F.prev_len
  have hQL : m.he_to_parent.length = m.heLen := F.parent_len
  have htwlt : m.twinD heId < m.heLen := F.twinD_lt hlt
  have hn0 : m.nextD heId < m.heLen := F.nextD_lt hlt
  have hn1 : m.nextD (m.twinD heId) < m.heLen := F.nextD_lt htwlt
  have hne01 : m.nextD heId ≠ m.nextD (m.twinD heId) := by
    intro hEq
    exact htw (F.nextD_inj htwlt hlt hEq.symm)
  have htwne : heId ≠ m.twinD heId := fun hh => htw hh.symm
  refine ⟨splitResult m heId t, heq, rfl, ?_, ?_, ?_, ?_, ?_, ?_, ?_, ?_, ?_, ?_, ?_,
    ?_, ?_, ?_, ?_, ?_, ?_, ?_, ?_, ?_⟩
  · simp [splitResult, Base2DMesh.heLen]
  · show (((m.he_to_twin ++ [m.twinD heId, heId]).set heId
        (m.he_to_twin.length + 1)).set (m.twinD heId) m.he_to_twin.length).getD heId 0 =
      m.heLen + 1
    rw [getD_set_ne _ _ _ htw, getD_set_eq _ _ _ (by simp; omega), hTL]
  · show (((m.he_to_twin ++ [m.twinD heId, heId]).set heId
        (m.he_to_twin.length + 1)).set (m.twinD heId) m.he_to_twin.length).getD
        (m.twinD heId) 0 = m.heLen
    rw [getD_set_eq _ _ _ (by simp; omega), hTL]
  · show (((m.he_to_twin ++ [m.twinD heId, heId]).set heId
        (m.he_to_twin.length + 1)).set (m.twinD heId) m.he_to_twin.length).getD
        m.heLen 0 = m.twinD heId
    rw [getD_set_ne _ _ _ (by omega), getD_set_ne _ _ _ (by omega), ← hTL,
      getD_append_two]
  · show (((m.he_to_twin ++ [m.twinD heId, heId]).set heId
        (m.he_to_twin.length + 1)).set (m.twinD heId) m.he_to_twin.length).getD
        (m.heLen + 1) 0 = heId
    rw [getD_set_ne _ _ _ (by omega), getD_set_ne _ _ _ (by omega), ← hTL,
      getD_append_two']
  · show (m.he_to_vertex ++ [m.vertices.length, m.vertices.length]).getD m.heLen 0 =
      m.vertices.length
    exact getD_append_two _ _ _ _
  · show (m.he_to_vertex ++ [m.vertices.length, m.vertices.length]).getD (m.heLen + 1) 0 =
      m.vertices.length
    exact getD_append_two' _ _ _ _
  · show ((((m.he_to_next_he.set heId m.he_to_twin.length) ++ [m.nextD heId]).set
        (m.twinD heId) (m.he_to_twin.length + 1)) ++ [m.nextD (m.twinD heId)]).getD heId 0 =
      m.heLen
    rw [getD_append_left _ _ _ (by simp; omega), getD_set_ne _ _ _ htw,
      getD_append_left _ _ _ (by simp; omega), getD_set_eq _ _ _ (by omega), hTL]
  · show ((((m.he_to_next_he.set heId m.he_to_twin.length) ++ [m.nextD heId]).set
        (m.twinD heId) (m.he_to_twin.length + 1)) ++ [m.nextD (m.twinD heId)]).getD
        m.heLen 0 = m.nextD heId
    rw [getD_append_left _ _ _ (by simp; omega), getD_set_ne _ _ _ (by omega)]
    have : m.heLen = (m.he_to_next_he.set heId m.he_to_twin.length).length := by
      simp; omega
    rw [this, getD_append_one]
  · show ((((m.he_to_next_he.set heId m.he_to_twin.length) ++ [m.nextD heId]).set
        (m.twinD heId) (m.he_to_twin.length + 1)) ++ [m.nextD (m.twinD heId)]).getD
        (m.twinD heId) 0 = m.heLen + 1
    rw [getD_append_left _ _ _ (by simp; omega), getD_set_eq _ _ _ (by simp; omega), hTL]
  · show ((((m.he_to_next_he.set heId m.he_to_twin.length) ++ [m.nextD heId]).set
        (m.twinD heId) (m.he_to_twin.length + 1)) ++ [m.nextD (m.twinD heId)]).getD
        (m.heLen + 1) 0 = m.nextD (m.twinD heId)
    have : m.heLen + 1 = (((m.he_to_next_he.set heId m.he_to_twin.length) ++
        [m.nextD heId]).set (m.twinD heId) (m.he_to_twin.length + 1)).length := by
      simp; omega
    rw [this, getD_append_one]
  · show (((m.he_to_prev_he.set (m.nextD heId) m.he_to_twin.length).set
        (m.nextD (m.twinD heId)) (m.he_to_twin.length + 1)) ++ [heId, m.twinD heId]).getD
        m.heLen 0 = heId
    have : m.heLen = ((m.he_to_prev_he.set (m.nextD heId) m.he_to_twin.length).set
        (m.nextD (m.twinD heId)) (m.he_to_twin.length + 1)).length := by
      simp; omega
    rw [this, getD_append_two]
  · show (((m.he_to_prev_he.set (m.nextD heId) m.he_to_twin.length).set
        (m.nextD (m.twinD heId)) (m.he_to_twin.length + 1)) ++ [heId, m.twinD heId]).getD
        (m.heLen + 1) 0 = m.twinD heId
    have h2 : m.heLen + 1 = ((m.he_to_prev_he.set (m.nextD heId) m.he_to_twin.length).set
        (m.nextD (m.twinD heId)) (m.he_to_twin.length + 1)).length + 1 := by
      simp; omega
    rw [h2, getD_append_two']
  · show (((m.he_to_prev_he.set (m.nextD heId) m.he_to_twin.length).set
        (m.nextD (m.twinD heId)) (m.he_to_twin.length + 1)) ++ [heId, m.twinD heId]).getD
        (m.nextD heId) 0 = m.heLen
    rw [getD_append_left _ _ _ (by simp; omega), getD_set_ne _ _ _ hne01.symm,
      getD_set_eq _ _ _ (by omega), hTL]
  · show (((m.he_to_prev_he.set (m.nextD heId) m.he_to_twin.length).set
        (m.nextD (m.twinD heId)) (m.he_to_twin.length + 1)) ++ [heId, m.twinD heId]).getD
        (m.nextD (m.twinD heId)) 0 = m.heLen + 1
    rw [getD_append_left _ _ _ (by simp; omega), getD_set_eq _ _ _ (by simp; omega), hTL]
  · show (m.he_to_parent ++ [m.parD heId, m.parD (m.twinD heId)]).getD m.heLen 0 =
      m.parD heId
    rw [show m.heLen = m.he_to_parent.length from hQL.symm, getD_append_two]
  · show (m.he_to_parent ++ [m.parD heId, m.parD (m.twinD heId)]).getD (m.heLen + 1) 0 =
      m.parD (m.twinD heId)
    rw [show m.heLen = m.he_to_parent.length from hQL.symm, getD_append_two']
  · intro k hk
    show (m.he_to_vertex ++ [m.vertices.length, m.vertices.length]).getD k 0 = m.vertD k
    rw [getD_append_left _ _ _ hk]
    rfl
  · intro k hk hk1 hk2
    refine ⟨?_, ?_, ?_⟩
    · show (((m.he_to_twin ++ [m.twinD heId, heId]).set heId
          (m.he_to_twin.length + 1)).set (m.twinD heId) m.he_to_twin.length).getD k 0 =
        m.twinD k
      rw [getD_set_ne _ _ _ (fun hh => hk2 hh.symm), getD_set_ne _ _ _ (fun hh => hk1 hh.symm),
        getD_append_left _ _ _ (by omega)]
      rfl
    · show ((((m.he_to_next_he.set heId m.he_to_twin.length) ++ [m.nextD heId]).set
          (m.twinD heId) (m.he_to_twin.length + 1)) ++ [m.nextD (m.twinD heId)]).getD k 0 =
        m.nextD k
      rw [getD_append_left _ _ _ (by simp; omega), getD_set_ne _ _ _ (fun hh => hk2 hh.symm),
        getD_append_left _ _ _ (by simp; omega), getD_set_ne _ _ _ (fun hh => hk1 hh.symm)]
      rfl
    · show (m.he_to_parent ++ [m.parD heId, m.parD (m.twinD heId)]).getD k 0 = m.parD k
      rw [getD_append_left _ _ _ (by omega)]
      rfl
  · intro k hk hk1 hk2
    show (((m.he_to_prev_he.set (m.nextD heId) m.he_to_twin.length).set
        (m.nextD (m.twinD heId)) (m.he_to_twin.length + 1)) ++ [heId, m.twinD heId]).getD
        k 0 = m.prevD k
    rw [getD_append_left _ _ _ (by simp; omega), getD_set_ne _ _ _ (fun hh => hk2 hh.symm),
      getD_set_ne _ _ _ (fun hh => hk1 hh.symm)]
    rfl

/-- Witness for C4: splitting half-edge 0 of the unit-square mesh at
`t = 1/2` succeeds and grows the half-edge count to 10. -/
theorem C4_witness :
    ∃ m', splitEdge sqMesh 0 (1 / 2) = (.ok (), m') ∧
      Base2DMesh.heLen m' = 10 ∧ Base2DMesh.twinD m' 0 = 9 := by
  obtain ⟨m', heq, hverts, hlen, htw1, hrest⟩ :=
    C4_split_edge_success sqMesh 0 (1 / 2) (by decide) (by decide) (by decide)
      (by norm_num) (by norm_num)
  refine ⟨m', heq, ?_, ?_⟩
  · rw [hlen]; rfl
  · rw [htw1]; rfl

end SplitCharacterization

section TrimmingHelpers

open Base2DMesh

theorem scanEdge_ok (m : Base2DMesh) (u v : ℕ) (l : List ℕ) (i : ℕ)
    (hiv : i + l.length ≤ m.he_to_vertex.length)
    (htv : ∀ x ∈ l, x < m.he_to_vertex.length)
    (hno : ∀ j, j < l.length → ¬(m.he_to_vertex.getD (i + j) 0 = u ∧
      m.he_to_vertex.getD (l.getD j 0) 0 = v)) :
    scanEdgeExistsM u v l i m = (.ok (), m) := by
  induction l generalizing i with
  | nil => rfl
  | cons tw rest ih =>
    have hi : i < m.he_to_vertex.length := by
      simp only [List.length_cons] at hiv
      omega
    have htw : tw < m.he_to_vertex.length := htv tw (List.mem_cons_self _ _)
    show (do
      let a ← readL Base2DMesh.he_to_vertex i
      let b ← readL Base2DMesh.he_to_vertex tw
      if a = u ∧ b = v then mthrow .AlreadyExists
      else scanEdgeExistsM u v rest (i + 1)) m = (.ok (), m)
    rw [bind_run, readL_run, fetch_eq_okD hi 0]
    try simp only []
    rw [bind_run, readL_run, fetch_eq_okD htw 0]
    try simp only []
    have h0 := hno 0 (by simp)
    simp only [Nat.add_zero, List.getD_cons_zero] at h0
    rw [if_neg h0]
    refine ih (i + 1) (by simp only [List.length_cons] at hiv; omega)
      (fun x hx => htv x (List.mem_cons_of_mem _ hx)) ?_
    intro j hj
    have h2 := hno (j + 1) (by simpa using hj)
    have hoff : i + (j + 1) = i + 1 + j := by omega
    rw [hoff] at h2
    simpa [List.getD_cons_succ] using h2

theorem scanEdge_err (m : Base2DMesh) (u v : ℕ) (l : List ℕ) (i : ℕ)
    (hiv : i + l.length ≤ m.he_to_vertex.length)
    (htv : ∀ x ∈ l, x < m.he_to_vertex.length)
    (hfound : ∃ j, j < l.length ∧ m.he_to_vertex.getD (i + j) 0 = u ∧
      m.he_to_vertex.getD (l.getD j 0) 0 = v) :
    scanEdgeExistsM u v l i m = (.err .AlreadyExists, m) := by
  induction l generalizing i with
  | nil => simp at hfound
  | cons tw rest ih =>
    have hi : i < m.he_to_vertex.length := by
      simp only [List.length_cons] at hiv
      omega
    have htw : tw < m.he_to_vertex.length := htv tw (List.mem_cons_self _ _)
    show (do
      let a ← readL Base2DMesh.he_to_vertex i
      let b ← readL Base2DMesh.he_to_vertex tw
      if a = u ∧ b = v then mthrow .AlreadyExists
      else scanEdgeExistsM u v rest (i + 1)) m = (.err .AlreadyExists, m)
    rw [bind_run, readL_run, fetch_eq_okD hi 0]
    try simp only []
    rw [bind_run, readL_run, fetch_eq_okD htw 0]
    try simp only []
    by_cases hc : m.he_to_vertex.getD i 0 = u ∧ m.he_to_vertex.getD tw 0 = v
    · rw [if_pos hc]
      rfl
    · rw [if_neg hc]
      obtain ⟨j, hj, hju, hjv⟩ := hfound
      cases j with
      | zero =>
        exact absurd ⟨by simpa using hju, by simpa using hjv⟩ hc
      | succ j =>
        refine ih (i + 1) (by simp only [List.length_cons] at hiv; omega)
          (fun x hx => htv x (List.mem_cons_of_mem _ hx)) ?_
        refine ⟨j, by simpa using hj, ?_, ?_⟩
        · rw [show i + 1 + j = i + (j + 1) by omega]
          exact hju
        · simpa using hjv

theorem findWithParent_none (m : Base2DMesh) (p : ℕ) (l : List ℕ)
    (hr : ∀ he ∈ l, he < m.he_to_parent.length)
    (hno : ∀ he ∈ l, m.he_to_parent.getD he 0 ≠ p) :
    findWithParentM p l m = (.ok Option.none, m) := by
  induction l with
  | nil => rfl
  | cons he rest ih =>
    show (do
      let pr ← readL Base2DMesh.he_to_parent he
      if pr = p then pure (some he) else findWithParentM p rest) m = (.ok Option.none, m)
    rw [bind_run, readL_run, fetch_eq_okD (hr he (List.mem_cons_self _ _)) 0]
    try simp only []
    rw [if_neg (hno he (List.mem_cons_self _ _))]
    exact ih (fun x hx => hr x (List.mem_cons_of_mem _ hx))
      (fun x hx => hno x (List.mem_cons_of_mem _ hx))

theorem findWithParent_some (m : Base2DMesh) (p : ℕ) (l : List ℕ)
    (hr : ∀ he ∈ l, he < m.he_to_parent.length)
    (hex : ∃ he ∈ l, m.he_to_parent.getD he 0 = p) :
    ∃ he, findWithParentM p l m = (.ok (some he), m) ∧ he ∈ l ∧
      m.he_to_parent.getD he 0 = p := by
  induction l with
  | nil => simp at hex
  | cons x rest ih =>
    have hshow : findWithParentM p (x :: rest) m = (do
      let pr ← readL Base2DMesh.he_to_parent x
      if pr = p then pure (some x) else findWithParentM p rest) m := rfl
    by_cases hc : m.he_to_parent.getD x 0 = p
    · refine ⟨x, ?_, List.mem_cons_self _ _, hc⟩
      rw [hshow, bind_run, readL_run, fetch_eq_okD (hr x (List.mem_cons_self _ _)) 0]
      try simp only []
      rw [if_pos hc]
      rfl
    · obtain ⟨he, hmem, hhe⟩ := hex
      rcases List.mem_cons.mp hmem with rfl | hmem'
      · exact absurd hhe hc
      · obtain ⟨he2, heq, hmem2, hp2⟩ := ih (fun y hy => hr y (List.mem_cons_of_mem _ hy))
          ⟨he, hmem', hhe⟩
        refine ⟨he2, ?_, List.mem_cons_of_mem _ hmem2, hp2⟩
        rw [hshow, bind_run, readL_run, fetch_eq_okD (hr x (List.mem_cons_self _ _)) 0]
        try simp only []
        rw [if_neg hc]
        exact heq

theorem heFromVertexL_mem (l : List ℕ) (vid : ℕ) :
    ∀ i x, x ∈ heFromVertexL l vid i ↔
      ∃ j, j < l.length ∧ x = i + j ∧ l.getD j 0 = vid := by
  induction l with
  | nil => simp [heFromVertexL]
  | cons y ys ih =>
    intro i x
    unfold heFromVertexL
    by_cases hy : y = vid
    · rw [if_pos hy]
      constructor
      · intro hx
        rcases List.mem_cons.mp hx with rfl | hx'
        · exact ⟨0, by simp, by omega, by simpa using hy⟩
        · obtain ⟨j, hj, hxe, hjv⟩ := (ih (i + 1) x).mp hx'
          exact ⟨j + 1, by simpa using hj, by omega, by simpa using hjv⟩
      · rintro ⟨j, hj, rfl, hjv⟩
        cases j with
        | zero => simp
        | succ j =>
          refine List.mem_cons_of_mem _ ((ih (i + 1) _).mpr ⟨j, by simpa using hj, by omega,
            by simpa using hjv⟩)
    · rw [if_neg hy]
      constructor
      · intro hx
        obtain ⟨j, hj, hxe, hjv⟩ := (ih (i + 1) x).mp hx
        exact ⟨j + 1, by simpa using hj, by omega, by simpa using hjv⟩
      · rintro ⟨j, hj, rfl, hjv⟩
        cases j with
        | zero => exact absurd (by simpa using hjv) hy
        | succ j =>
          exact (ih (i + 1) _).mpr ⟨j, by simpa using hj, by omega, by simpa using hjv⟩

end TrimmingHelpers

section ClaimC7

open Base2DMesh

/-- C7.  On a mesh accepted by `check_mesh`, `trimming((u,v), p)` fails with
`VertexOutOfBound` when `u` (checked first) or `v` is out of range; with
`AlreadyExists` when both are in range and some half-edge already runs from
`u` to `v`; with `ParentDoesNotContainVertex u` when no half-edge
originating at `u` has parent `p`; and with `ParentDoesNotContainVertex v`
when `u` has such a half-edge but `v` has none — each check decided only
after all earlier ones pass, and each error leaving the mesh unchanged. -/
theorem C7_trimming_error_contract (m : Base2DMesh) (u v p : ℕ)
    (hchk : checkMesh m = .ok ()) :
    (m.vertices.length ≤ u →
      trimming m u v p = (.err (.VertexIndexOutOfBound u m.vertices.length), m)) ∧
    (u < m.vertices.length → m.vertices.length ≤ v →
      trimming m u v p = (.err (.VertexIndexOutOfBound v m.vertices.length), m)) ∧
    (u < m.vertices.length → v < m.vertices.length →
      (∃ i, i < m.heLen ∧ m.vertD i = u ∧ m.vertD (m.twinD i) = v) →
      trimming m u v p = (.err .AlreadyExists, m)) ∧
    (u < m.vertices.length → v < m.vertices.length →
      (¬∃ i, i < m.heLen ∧ m.vertD i = u ∧ m.vertD (m.twinD i) = v) →
      (∀ i, i < m.heLen → m.vertD i = u → m.parD i ≠ p) →
      trimming m u v p = (.err (.ParentDoesNotContainVertex u p), m)) ∧
    (u < m.vertices.length → v < m.vertices.length →
      (¬∃ i, i < m.heLen ∧ m.vertD i = u ∧ m.vertD (m.twinD i) = v) →
      (∃ i, i < m.heLen ∧ m.vertD i = u ∧ m.parD i = p) →
      (∀ i, i < m.heLen → m.vertD i = v → m.parD i ≠ p) →
      trimming m u v p = (.err (.ParentDoesNotContainVertex v p), m)) := by
  have F := checkMesh_ok_facts hchk
  have hTL : m.he_to_twin.length = m.heLen := F.twin_len
  have hQL : m.he_to_parent.length = m.heLen := F.parent_len
  have hHL : m.heLen = m.he_to_vertex.length := rfl
  have hscanlen : 0 + m.he_to_twin.length ≤ m.he_to_vertex.length := by
    simp only [Nat.zero_add]
    omega
  have hmemU : ∀ w he, he ∈ m.heFromVertex w → he < m.heLen ∧ m.vertD he = w := by
    intro w he hhe
    obtain ⟨j, hj, rfl, hjv⟩ := (heFromVertexL_mem m.he_to_vertex w 0 he).mp hhe
    constructor
    · omega
    · rw [Nat.zero_add]
      exact hjv
  have hmemU2 : ∀ w i, i < m.heLen → m.vertD i = w → i ∈ m.heFromVertex w := by
    intro w i hi hiv
    exact (heFromVertexL_mem m.he_to_vertex w 0 i).mpr ⟨i, by omega, by omega, hiv⟩
  refine ⟨fun hu => ?_, fun hu hv => ?_, fun hu hv hex => ?_, fun hu hv hnoe hnop => ?_,
    fun hu hv hnoe hexu hnopv => ?_⟩
  · unfold trimming trimmingM
    rw [bind_run, mget_run]
    try simp only []
    rw [if_pos hu]
    rfl
  · unfold trimming trimmingM
    rw [bind_run, mget_run]
    try simp only []
    rw [if_neg (by omega), if_pos hv]
    rfl
  · have hfound : ∃ j, j < m.he_to_twin.length ∧ m.he_to_vertex.getD (0 + j) 0 = u ∧
        m.he_to_vertex.getD (m.he_to_twin.getD j 0) 0 = v := by
      obtain ⟨i, hi, hiu, hiv⟩ := hex
      refine ⟨i, by omega, ?_, hiv⟩
      rw [Nat.zero_add]
      exact hiu
    unfold trimming trimmingM
    rw [bind_run, mget_run]
    try simp only []
    rw [if_neg (by omega), if_neg (by omega)]
    try simp only []
    rw [bind_run, scanEdge_err m u v m.he_to_twin 0 hscanlen F.twin_lt hfound]
    try rfl
  · have hnone : ∀ j, j < m.he_to_twin.length → ¬(m.he_to_vertex.getD (0 + j) 0 = u ∧
        m.he_to_vertex.getD (m.he_to_twin.getD j 0) 0 = v) := by
      intro j hj hc
      refine hnoe ⟨j, by omega, ?_, hc.2⟩
      have := hc.1
      rw [Nat.zero_add] at this
      exact this
    unfold trimming trimmingM
    rw [bind_run, mget_run]
    try simp only []
    rw [if_neg (by omega), if_neg (by omega)]
    try simp only []
    rw [bind_run, scanEdge_ok m u v m.he_to_twin 0 hscanlen F.twin_lt hnone]
    try simp only []
    rw [bind_run, mget_run]
    try simp only []
    rw [bind_run, findWithParent_none m p (m.heFromVertex u)
      (fun he hhe => by have := (hmemU u he hhe).1; omega)
      (fun he hhe => hnop he (hmemU u he hhe).1 (hmemU u he hhe).2)]
    rfl
  · have hnone : ∀ j, j < m.he_to_twin.length → ¬(m.he_to_vertex.getD (0 + j) 0 = u ∧
        m.he_to_vertex.getD (m.he_to_twin.getD j 0) 0 = v) := by
      intro j hj hc
      refine hnoe ⟨j, by omega, ?_, hc.2⟩
      have := hc.1
      rw [Nat.zero_add] at this
      exact this
    unfold trimming trimmingM
    rw [bind_run, mget_run]
    try simp only []
    rw [if_neg (by omega), if_neg (by omega)]
    try simp only []
    rw [bind_run, scanEdge_ok m u v m.he_to_twin 0 hscanlen F.twin_lt hnone]
    try simp only []
    rw [bind_run, mget_run]
    try simp only []
    obtain ⟨heS, heqS, hmemS, hpS⟩ := findWithParent_some m p (m.heFromVertex u)
      (fun he hhe => by have := (hmemU u he hhe).1; omega)
      (by
        obtain ⟨i, hi, hiu, hip⟩ := hexu
        exact ⟨i, hmemU2 u i hi hiu, hip⟩)
    rw [bind_run, heqS]
    try simp only []
    rw [bind_run, mget_run]
    try simp only []
    rw [bind_run, findWithParent_none m p (m.heFromVertex v)
      (fun he hhe => by have := (hmemU v he hhe).1; omega)
      (fun he hhe => hnopv he (hmemU v he hhe).1 (hmemU v he hhe).2)]
    rfl

/-- Witness for C7 on the unit-square mesh: an out-of-range vertex, an
existing edge, and a parent missing a vertex each produce the claimed
error. -/
theorem C7_witness :
    trimming sqMesh 9 0 1 = (.err (.VertexIndexOutOfBound 9 4), sqMesh) ∧
    trimming sqMesh 0 1 1 = (.err .AlreadyExists, sqMesh) ∧
    trimming sqMesh 0 2 5 = (.err (.ParentDoesNotContainVertex 0 5), sqMesh) := by
  obtain ⟨h1, _, h3, h4, _⟩ := C7_trimming_error_contract sqMesh 9 0 1 (by decide)
  obtain ⟨_, _, h3b, _, _⟩ := C7_trimming_error_contract sqMesh 0 1 1 (by decide)
  obtain ⟨_, _, _, h4c, _⟩ := C7_trimming_error_contract sqMesh 0 2 5 (by decide)
  refine ⟨h1 (by decide), h3b (by decide) (by decide) ⟨0, by decide, by decide, by decide⟩, ?_⟩
  refine h4c (by decide) (by decide) ?_ (by decide)
  decide

end ClaimC7

section WalkMachinery

open Base2DMesh

/-- Pure fuel-indexed walk along `next` starting at `cur`, collecting the
half-edges visited strictly before the first one originating at `tgt`; this
is the specification of the two re-parenting loops of `trimming` (each loop
body marks the current half-edge and steps, and its `i` counter corresponds
to the fuel here). -/
def walkUntil (vert nxt : List ℕ) (tgt : ℕ) : ℕ → ℕ → Option (List ℕ × ℕ)
  | fuel, cur =>
    if vert.getD cur 0 = tgt then some ([], cur)
    else
      match fuel with
      | 0 => Option.none
      | fuel + 1 =>
        match walkUntil vert nxt tgt fuel (nxt.getD cur 0) with
        | some (l, stop) => some (cur :: l, stop)
        | Option.none => Option.none

/-- Set every index of `W` to `x`, in order (the accumulated effect of a
re-parenting loop). -/
def setAll (par : List ℕ) (W : List ℕ) (x : ℕ) : List ℕ :=
  W.foldl (fun l i => l.set i x) par

theorem setAll_nil (par : List ℕ) (x : ℕ) : setAll par [] x = par := rfl

theorem setAll_cons (par : List ℕ) (w : ℕ) (W : List ℕ) (x : ℕ) :
    setAll par (w :: W) x = setAll (par.set w x) W x := rfl

theorem setAll_length (par W : List ℕ) (x : ℕ) : (setAll par W x).length = par.length := by
  induction W generalizing par with
  | nil => rfl
  | cons w ws ih => rw [setAll_cons, ih, List.length_set]

/-- The re-parenting loop of `trimming` follows `walkUntil` exactly: if the
pure walk (over the state's origin and next arrays) succeeds within the
fuel and stays in range, the loop returns the stop half-edge and sets the
parent of every visited half-edge. -/
theorem reparentLoopM_walk (tgt newPar eV eP : ℕ) (fuel : ℕ) :
    ∀ cur s W stop,
      walkUntil s.he_to_vertex s.he_to_next_he tgt fuel cur = some (W, stop) →
      (∀ x ∈ W, x < s.he_to_vertex.length ∧ x < s.he_to_parent.length ∧
        x < s.he_to_next_he.length) →
      stop < s.he_to_vertex.length →
      reparentLoopM tgt newPar eV eP fuel cur s =
        (.ok stop, { s with he_to_parent := setAll s.he_to_parent W newPar }) := by
  induction fuel with
  | zero =>
    intro cur s W stop hwalk hW hstop
    unfold walkUntil at hwalk
    split at hwalk
    · rename_i hv
      cases hwalk
      unfold reparentLoopM
      rw [bind_run, readL_run, fetch_eq_okD hstop 0]
      try simp only []
      rw [if_pos hv]
      rw [setAll_nil]
      rfl
    · simp at hwalk
  | succ fuel ih =>
    intro cur s W stop hwalk hW hstop
    unfold walkUntil at hwalk
    split at hwalk
    · rename_i hv
      cases hwalk
      unfold reparentLoopM
      rw [bind_run, readL_run, fetch_eq_okD hstop 0]
      try simp only []
      rw [if_pos hv]
      rw [setAll_nil]
      rfl
    · rename_i hv
      simp only [] at hwalk
      cases hrec : walkUntil s.he_to_vertex s.he_to_next_he tgt fuel
          (s.he_to_next_he.getD cur 0) with
      | none => rw [hrec] at hwalk; cases hwalk
      | some pr =>
        rw [hrec] at hwalk
        cases pr with
        | mk l stp =>
          simp only [] at hwalk
          cases hwalk
          have hcur := hW cur (List.mem_cons_self _ _)
          unfold reparentLoopM
          rw [bind_run, readL_run, fetch_eq_okD hcur.1 0]
          try simp only []
          rw [if_neg hv]
          rw [bind_run]
          unfold writeHeParent
          rw [setF_eq_ok _ hcur.2.1]
          try simp only []
          rw [bind_run, readL_run]
          rw [show (fetch ({ s with he_to_parent := s.he_to_parent.set cur newPar} :
            Base2DMesh).he_to_next_he cur) = fetch s.he_to_next_he cur from rfl]
          rw [fetch_eq_okD hcur.2.2 0]
          try simp only []
          have := ih (s.he_to_next_he.getD cur 0)
            { s with he_to_parent := s.he_to_parent.set cur newPar } l stop
            (by simpa using hrec)
            (by
              intro x hx
              have := hW x (List.mem_cons_of_mem _ hx)
              simpa [List.length_set] using this)
            (by simpa using hstop)
          rw [this]
          rw [setAll_cons]

/-- State of the half-edge origin array right after `trimming` has pushed
the two new half-edges. -/
def trimVertA (m : Base2DMesh) (u v : ℕ) : List ℕ := m.he_to_vertex ++ [v, u]

/-- State of the `next` array right before the first re-parenting loop of
`trimming` (two pushes, then the link from `prev(heStart)` to the new twin). -/
def trimNxtA (m : Base2DMesh) (heStart : ℕ) : List ℕ :=
  (m.he_to_next_he ++ [heStart, usizeMax]).set (m.prevD heStart) (m.heLen + 1)

/-- State of the `prev` array right before the first re-parenting loop. -/
def trimPrevA (m : Base2DMesh) (heStart : ℕ) : List ℕ :=
  (m.he_to_prev_he ++ [usizeMax, m.prevD heStart]).set heStart m.heLen

/-- State of the `next` array after the stitching writes between the two
re-parenting loops. -/
def trimNxtB (m : Base2DMesh) (heStart heV : ℕ) : List ℕ :=
  ((trimNxtA m heStart).set (m.heLen + 1) heV).set
    ((trimPrevA m heStart).getD heV 0) m.heLen

/-- Explicit final state of a successful `trimming` call, as a function of
the original mesh, the first half-edge found at `u` with parent `p`
(`heStart`), the stop half-edge of the first loop (`heV`), and the two
visited walks `W1`, `W2`. -/
def trimResult (m : Base2DMesh) (u v p heStart heV : ℕ) (W1 W2 : List ℕ) : Base2DMesh :=
  { he_to_vertex := trimVertA m u v,
    he_to_twin := m.he_to_twin ++ [m.heLen + 1, m.heLen],
    he_to_next_he := trimNxtB m heStart heV,
    he_to_prev_he := ((trimPrevA m heStart).set m.heLen
        ((trimPrevA m heStart).getD heV 0)).set heV (m.heLen + 1),
    he_to_parent := setAll (setAll (m.he_to_parent ++ [p, m.parents.length]) W1 p) W2
      m.parents.length,
    vertices := m.vertices,
    parents := m.parents ++ [Parent.Cell],
    parent_to_first_he := (m.parent_to_first_he.set p m.heLen) ++ [m.heLen + 1] }

theorem heLen_mk (a b c d e f : List ℕ) (vs : List Pt) (ps : List Parent) :
    (Base2DMesh.mk a b c d e vs ps f).heLen = a.length := rfl

/-- Successful `trimming` computes exactly `trimResult`: the guards pass,
the duplicate-edge scan finds nothing, the searches at `u` and `v` find
half-edges with parent `p`, and the two re-parenting loops follow their
pure walks. -/
theorem trimming_ok_char (m : Base2DMesh) (u v p heStart heV heVf heEnd : ℕ)
    (W1 W2 : List ℕ)
    (hchk : checkMesh m = .ok ())
    (hu : u < m.vertices.length) (hv : v < m.vertices.length)
    (hscan : ∀ j, j < m.he_to_twin.length →
      ¬(m.he_to_vertex.getD (0 + j) 0 = u ∧
        m.he_to_vertex.getD (m.he_to_twin.getD j 0) 0 = v))
    (hfindU : findWithParentM p (m.heFromVertex u) m = (.ok (some heStart), m))
    (hfindV : findWithParentM p (m.heFromVertex v) m = (.ok (some heVf), m))
    (hS : heStart < m.heLen) (hV : heV < m.heLen)
    (hqlt : (trimPrevA m heStart).getD heV 0 < m.heLen + 2)
    (hfp : p < m.parent_to_first_he.length)
    (hwalk1 : walkUntil (trimVertA m u v) (trimNxtA m heStart) v (m.heLen + 1) heStart =
      some (W1, heV))
    (hW1 : ∀ x ∈ W1, x < m.heLen + 2)
    (hwalk2 : walkUntil (trimVertA m u v) (trimNxtB m heStart heV) u (m.heLen + 1) heV =
      some (W2, heEnd))
    (hW2 : ∀ x ∈ W2, x < m.heLen + 2) (hE : heEnd < m.heLen + 2) :
    trimming m u v p = (.ok m.parents.length, trimResult m u v p heStart heV W1 W2) := by
  have F := checkMesh_ok_facts hchk
  have hTL : m.he_to_twin.length = m.heLen := F.twin_len
  have hNL : m.he_to_next_he.length = m.heLen := F.next_len
  have hPL : m.he_to_prev_he.length = m.heLen := F.prev_len
  have hQL : m.he_to_parent.length = m.heLen := F.parent_len
  have hHL : m.heLen = m.he_to_vertex.length := rfl
  have hpvS : m.prevD heStart < m.heLen := F.prevD_lt hS
  have hscanlen : 0 + m.he_to_twin.length ≤ m.he_to_vertex.length := by
    simp only [Nat.zero_add]
    omega
  unfold trimming trimmingM
  rw [bind_run, mget_run]
  try simp only []
  rw [if_neg (by omega), if_neg (by omega)]
  try simp only []
  rw [bind_run, scanEdge_ok m u v m.he_to_twin 0 hscanlen F.twin_lt hscan]
  try simp only []
  rw [bind_run, mget_run]
  try simp only []
  rw [bind_run, hfindU]
  try simp only []
  rw [bind_run, mget_run]
  try simp only []
  rw [bind_run, hfindV]
  try simp only []
  rw [bind_run, mget_run]
  try simp only []
  simp only [pushHeVertex, pushTwin, pushParent, pushHeParent, pushNext, pushPrev,
    bind_run, mget_run]
  try simp only []
  simp only [List.append_assoc, List.cons_append, List.nil_append]
  rw [readL_run]
  have hrdpv : heStart < (m.he_to_prev_he ++ [usizeMax]).length := by
    simp only [List.length_append, List.length_cons, List.length_nil]
    omega
  rw [fetch_eq_okD hrdpv 0, getD_append_left _ _ _ (by omega)]
  try simp only []
  simp only [List.append_assoc, List.cons_append, List.nil_append]
  rw [show m.he_to_prev_he.getD heStart 0 = m.prevD heStart from rfl]
  rw [readL_run]
  have hrdpv2 : heStart < (m.he_to_prev_he ++ [usizeMax, m.prevD heStart]).length := by
    simp only [List.length_append, List.length_cons, List.length_nil]
    omega
  rw [fetch_eq_okD hrdpv2 0, getD_append_left _ _ _ (by omega)]
  try simp only []
  unfold writeNext
  try simp only []
  rw [show m.he_to_prev_he.getD heStart 0 = m.prevD heStart from rfl]
  rw [setF_eq_ok _ (show m.prevD heStart <
    (m.he_to_next_he ++ [heStart, usizeMax]).length by
      simp only [List.length_append, List.length_cons, List.length_nil]
      omega)]
  try simp only []
  unfold writePrev
  try simp only []
  rw [setF_eq_ok _ (show heStart <
    (m.he_to_prev_he ++ [usizeMax, m.prevD heStart]).length by
      simp only [List.length_append, List.length_cons, List.length_nil]
      omega)]
  try simp only []
  rw [show m.he_to_vertex ++ [v, u] = trimVertA m u v from rfl]
  rw [show (m.he_to_next_he ++ [heStart, usizeMax]).set (m.prevD heStart) (m.heLen + 1) =
    trimNxtA m heStart from rfl]
  rw [show (m.he_to_prev_he ++ [usizeMax, m.prevD heStart]).set heStart m.heLen =
    trimPrevA m heStart from rfl]
  rw [heLen_mk]
  have hfuel : (trimVertA m u v).length - 1 = m.heLen + 1 := by
    simp only [trimVertA, List.length_append, List.length_cons, List.length_nil]
    omega
  have hloop1 := reparentLoopM_walk v p v p (m.heLen + 1) heStart
    { he_to_vertex := trimVertA m u v,
      he_to_twin := m.he_to_twin ++ [m.heLen + 1, m.heLen],
      he_to_next_he := trimNxtA m heStart,
      he_to_prev_he := trimPrevA m heStart,
      he_to_parent := m.he_to_parent ++ [p, m.parents.length],
      vertices := m.vertices,
      parents := m.parents ++ [Parent.Cell],
      parent_to_first_he := m.parent_to_first_he } W1 heV
    hwalk1
    (by
      intro x hx
      have := hW1 x hx
      refine ⟨?_, ?_, ?_⟩
      · simp only [trimVertA, List.length_append, List.length_cons, List.length_nil]
        omega
      · simp only [List.length_append, List.length_cons, List.length_nil]
        omega
      · simp only [trimNxtA, List.length_set, List.length_append, List.length_cons,
          List.length_nil]
        omega)
    (by
      simp only [trimVertA, List.length_append, List.length_cons, List.length_nil]
      omega)
  rw [hfuel, hloop1]
  try simp only []
  have hPAlen : (trimPrevA m heStart).length = m.heLen + 2 := by
    simp only [trimPrevA, List.length_set, List.length_append, List.length_cons,
      List.length_nil]
    omega
  have hNAlen : (trimNxtA m heStart).length = m.heLen + 2 := by
    simp only [trimNxtA, List.length_set, List.length_append, List.length_cons,
      List.length_nil]
    omega
  rw [readL_run]
  try simp only []
  rw [fetch_eq_okD (show heV < (trimPrevA m heStart).length by rw [hPAlen]; omega) 0]
  try simp only []
  rw [setF_eq_ok _ (show m.heLen < (trimPrevA m heStart).length by rw [hPAlen]; omega)]
  try simp only []
  rw [setF_eq_ok _ (show m.heLen + 1 < (trimNxtA m heStart).length by
    rw [hNAlen]; omega)]
  try simp only []
  rw [readL_run]
  try simp only []
  rw [fetch_eq_okD (show heV <
      ((trimPrevA m heStart).set m.heLen ((trimPrevA m heStart).getD heV 0)).length by
    rw [List.length_set, hPAlen]; omega) 0]
  rw [getD_set_ne _ _ _ (show m.heLen ≠ heV by omega)]
  try simp only []
  rw [setF_eq_ok _ (show (trimPrevA m heStart).getD heV 0 <
      ((trimNxtA m heStart).set (m.heLen + 1) heV).length by
    rw [List.length_set, hNAlen]; omega)]
  try simp only []
  rw [show ((trimNxtA m heStart).set (m.heLen + 1) heV).set
      ((trimPrevA m heStart).getD heV 0) m.heLen = trimNxtB m heStart heV from rfl]
  rw [setF_eq_ok _ (show heV <
      ((trimPrevA m heStart).set m.heLen ((trimPrevA m heStart).getD heV 0)).length by
    rw [List.length_set, hPAlen]; omega)]
  try simp only []
  have hloop2 := reparentLoopM_walk u m.parents.length u p (m.heLen + 1) heV
    { he_to_vertex := trimVertA m u v,
      he_to_twin := m.he_to_twin ++ [m.heLen + 1, m.heLen],
      he_to_next_he := trimNxtB m heStart heV,
      he_to_prev_he := ((trimPrevA m heStart).set m.heLen
        ((trimPrevA m heStart).getD heV 0)).set heV (m.heLen + 1),
      he_to_parent := setAll (m.he_to_parent ++ [p, m.parents.length]) W1 p,
      vertices := m.vertices,
      parents := m.parents ++ [Parent.Cell],
      parent_to_first_he := m.parent_to_first_he } W2 heEnd
    hwalk2
    (by
      intro x hx
      have := hW2 x hx
      refine ⟨?_, ?_, ?_⟩
      · simp only [trimVertA, List.length_append, List.length_cons, List.length_nil]
        omega
      · rw [setAll_length]
        simp only [List.length_append, List.length_cons, List.length_nil]
        omega
      · simp only [trimNxtB, trimNxtA, List.length_set, List.length_append,
          List.length_cons, List.length_nil]
        omega)
    (by
      simp only [trimVertA, List.length_append, List.length_cons, List.length_nil]
      omega)
  rw [heLen_mk, hfuel, hloop2]
  try simp only []
  unfold writeFirstHe
  try simp only []
  rw [setF_eq_ok _ hfp]
  try simp only []
  simp only [pushFirstHe, pure_run]
  rfl

end WalkMachinery

section ClaimC6

/-- C6: counterexample. `trimming(sqMesh, (1, 1), 1)` succeeds even though
`u = v = 1`: the two appended half-edges 8 and 9 both run from vertex 1 to
vertex 1, so they do not form an edge between two vertices; the new `Cell`
parent 2 owns exactly one half-edge (9), and every half-edge of parent 1's
old cycle `[0, 2, 4, 6]` keeps parent 1, so the remaining half-edges of that
cycle are not re-parented to the new cell as the claim requires. -/
theorem C6_counterexample :
    (trimming sqMesh 1 1 1).1 = .ok 2 ∧
    (trimming sqMesh 1 1 1).2.he_to_vertex = sqMesh.he_to_vertex ++ [1, 1] ∧
    (trimming sqMesh 1 1 1).2.he_to_parent = [1, 0, 1, 0, 1, 0, 1, 0, 1, 2] ∧
    (trimming sqMesh 1 1 1).2.he_to_parent.count 2 = 1 := by
  have h := trimming_ok_char sqMesh 1 1 1 2 2 2 2 [] []
    sqMesh_check (by decide) (by decide) (by decide) rfl rfl
    (by decide) (by decide) (by decide) (by decide)
    (by decide) (by decide) (by decide) (by decide) (by decide)
  rw [h]
  decide

/-- C6 (amended): a successful `trimming((u, v), p)` on a mesh accepted by
`check_mesh` appends exactly the two half-edges `n` (origin `v`, parent `p`)
and `n + 1` (origin `u`, parent new cell) as each other's twins, appends
exactly one parent of kind `Cell` whose index `parents_len` is returned,
resets `parent_to_first_he[p]` to `n` and appends `n + 1` for the new cell,
keeps parent `p` on the walk `W1` (the half-edges from the one found at `u`
up to, but excluding, the first one originating at `v`) and re-parents the
walk `W2` (from the half-edge at `v` up to, but excluding, the half-edge at
`u`) to the new cell: the final state is exactly `trimResult`. -/
theorem C6_amended_trimming_success (m : Base2DMesh) (u v p heStart heV heVf heEnd : ℕ)
    (W1 W2 : List ℕ)
    (hchk : checkMesh m = .ok ())
    (hu : u < m.vertices.length) (hv : v < m.vertices.length)
    (hscan : ∀ j, j < m.he_to_twin.length →
      ¬(m.he_to_vertex.getD (0 + j) 0 = u ∧
        m.he_to_vertex.getD (m.he_to_twin.getD j 0) 0 = v))
    (hfindU : findWithParentM p (m.heFromVertex u) m = (.ok (some heStart), m))
    (hfindV : findWithParentM p (m.heFromVertex v) m = (.ok (some heVf), m))
    (hS : heStart < m.heLen) (hV : heV < m.heLen)
    (hqlt : (trimPrevA m heStart).getD heV 0 < m.heLen + 2)
    (hfp : p < m.parent_to_first_he.length)
    (hwalk1 : walkUntil (trimVertA m u v) (trimNxtA m heStart) v (m.heLen + 1) heStart =
      some (W1, heV))
    (hW1 : ∀ x ∈ W1, x < m.heLen + 2)
    (hwalk2 : walkUntil (trimVertA m u v) (trimNxtB m heStart heV) u (m.heLen + 1) heV =
      some (W2, heEnd))
    (hW2 : ∀ x ∈ W2, x < m.heLen + 2) (hE : heEnd < m.heLen + 2) :
    trimming m u v p = (.ok m.parents.length, trimResult m u v p heStart heV W1 W2) :=
  trimming_ok_char m u v p heStart heV heVf heEnd W1 W2 hchk hu hv hscan hfindU hfindV
    hS hV hqlt hfp hwalk1 hW1 hwalk2 hW2 hE

/-- Witness for C6: cutting the square's interior cell along the diagonal
from vertex 0 to vertex 2 succeeds and produces exactly `trimResult`; the
half-edge walk `[0, 2]` keeps the cell parent 1 and the walk `[4, 6]` is
re-parented to the new cell 2. -/
theorem C6_witness :
    trimming sqMesh 0 2 1 =
      (.ok sqMesh.parents.length, trimResult sqMesh 0 2 1 0 4 [0, 2] [4, 6]) :=
  C6_amended_trimming_success sqMesh 0 2 1 0 4 4 9 [0, 2] [4, 6]
    sqMesh_check (by decide) (by decide) (by decide) rfl rfl
    (by decide) (by decide) (by decide) (by decide)
    (by decide) (by decide) (by decide) (by decide) (by decide)

end ClaimC6

section ClaimC8

/-- The mesh reached by `notching(sqMesh, 0, (1/2, 1/2))` right after the
split of half-edge 0 at `t = 1/2` and the move of the new vertex 4 to
`(1/2, 1/2)`. -/
def notchMid : Base2DMesh :=
  { he_to_vertex := [0, 1, 1, 2, 2, 3, 3, 0, 4, 4],
    he_to_twin := [9, 8, 3, 2, 5, 4, 7, 6, 1, 0],
    he_to_next_he := [8, 9, 4, 1, 6, 3, 0, 5, 2, 7],
    he_to_prev_he := [6, 3, 8, 5, 2, 7, 4, 9, 0, 1],
    he_to_parent := [1, 0, 1, 0, 1, 0, 1, 0, 1, 0],
    vertices := [⟨0, 0⟩, ⟨1, 0⟩, ⟨1, 1⟩, ⟨0, 1⟩, ⟨mkRat 1 2, mkRat 1 2⟩],
    parents := [Parent.Boundary ⟨some 0⟩, Parent.Cell],
    parent_to_first_he := [1, 0] }

/-- The final mesh of `notching(sqMesh, 0, (1/2, 1/2))`. -/
def notchSq : Base2DMesh :=
  { he_to_vertex := [0, 1, 1, 2, 2, 3, 3, 0, 4, 4, 1, 0],
    he_to_twin := [9, 8, 3, 2, 5, 4, 7, 6, 1, 0, 11, 10],
    he_to_next_he := [8, 9, 4, 10, 6, 3, 0, 5, 2, 11, 7, 1],
    he_to_prev_he := [6, 11, 8, 5, 2, 7, 4, 10, 0, 1, 3, 9],
    he_to_parent := [1, 2, 1, 0, 1, 0, 1, 0, 1, 2, 0, 2],
    vertices := [⟨0, 0⟩, ⟨1, 0⟩, ⟨1, 1⟩, ⟨0, 1⟩, ⟨mkRat 1 2, mkRat 1 2⟩],
    parents := [Parent.Boundary ⟨some 0⟩, Parent.Cell, Parent.Cell],
    parent_to_first_he := [10, 0, 11] }

/-- Full evaluation of the notching call of the spec's scenario: split
half-edge 0 at its midpoint, move the new vertex to the square's centre,
then trim the boundary parent between the original endpoints 0 and 1. -/
theorem notching_sq :
    notching sqMesh 0 ⟨mkRat 1 2, mkRat 1 2⟩ = (.ok 2, notchSq) := by
  have F := checkMesh_ok_facts sqMesh_check
  unfold notching notchingM
  rw [bind_run, mget_run]
  try simp only []
  rw [if_neg (show ¬sqMesh.heLen ≤ 0 by decide)]
  try simp only []
  rw [bind_run, readL_run, show fetch sqMesh.he_to_twin 0 = RRes.ok 1 from rfl]
  try simp only []
  rw [bind_run, readL_run, show fetch sqMesh.he_to_parent 1 = RRes.ok 0 from rfl]
  try simp only []
  rw [bind_run, readL_run, show fetch sqMesh.he_to_vertex 0 = RRes.ok 0 from rfl]
  try simp only []
  rw [bind_run, readL_run, show fetch sqMesh.he_to_twin 0 = RRes.ok 1 from rfl]
  try simp only []
  rw [bind_run, readL_run, show fetch sqMesh.he_to_vertex 1 = RRes.ok 1 from rfl]
  try simp only []
  rw [bind_run, mget_run]
  try simp only []
  rw [bind_run]
  unfold splitEdgeM
  rw [bind_run, mget_run]
  try simp only []
  rw [if_neg (show ¬sqMesh.heLen ≤ 0 by decide)]
  try simp only []
  rw [if_neg (show ¬(1 ≤ mkRat 1 2 ∨ mkRat 1 2 ≤ 0) by decide)]
  try simp only []
  rw [splitEdgeBody_ok_char sqMesh F 0 (mkRat 1 2) (by decide) (by decide)]
  try simp only []
  rw [show splitResult sqMesh 0 (mkRat 1 2) =
    { he_to_vertex := [0, 1, 1, 2, 2, 3, 3, 0, 4, 4],
      he_to_twin := [9, 8, 3, 2, 5, 4, 7, 6, 1, 0],
      he_to_next_he := [8, 9, 4, 1, 6, 3, 0, 5, 2, 7],
      he_to_prev_he := [6, 3, 8, 5, 2, 7, 4, 9, 0, 1],
      he_to_parent := [1, 0, 1, 0, 1, 0, 1, 0, 1, 0],
      vertices := [⟨0, 0⟩, ⟨1, 0⟩, ⟨1, 1⟩, ⟨0, 1⟩, lerp ⟨0, 0⟩ ⟨1, 0⟩ (mkRat 1 2)],
      parents := [Parent.Boundary ⟨some 0⟩, Parent.Cell],
      parent_to_first_he := [1, 0] } from rfl]
  unfold writeVertexPos
  rw [bind_run]
  try simp only []
  rw [show setF [(⟨0, 0⟩ : Pt), ⟨1, 0⟩, ⟨1, 1⟩, ⟨0, 1⟩, lerp ⟨0, 0⟩ ⟨1, 0⟩ (mkRat 1 2)]
    sqMesh.vertices.length ⟨mkRat 1 2, mkRat 1 2⟩ =
    RRes.ok [⟨0, 0⟩, ⟨1, 0⟩, ⟨1, 1⟩, ⟨0, 1⟩, ⟨mkRat 1 2, mkRat 1 2⟩] from rfl]
  try simp only []
  rw [show Base2DMesh.mk [0, 1, 1, 2, 2, 3, 3, 0, 4, 4] [9, 8, 3, 2, 5, 4, 7, 6, 1, 0]
      [8, 9, 4, 1, 6, 3, 0, 5, 2, 7] [6, 3, 8, 5, 2, 7, 4, 9, 0, 1]
      [1, 0, 1, 0, 1, 0, 1, 0, 1, 0]
      [⟨0, 0⟩, ⟨1, 0⟩, ⟨1, 1⟩, ⟨0, 1⟩, ⟨mkRat 1 2, mkRat 1 2⟩]
      [Parent.Boundary ⟨some 0⟩, Parent.Cell] [1, 0] = notchMid from rfl]
  have htrim := trimming_ok_char notchMid 0 1 0 7 1 1 11 [7, 5, 3] [1, 9]
    (by decide) (by decide) (by decide) (by decide) rfl rfl
    (by decide) (by decide) (by decide) (by decide)
    (by decide) (by decide) (by decide) (by decide) (by decide)
  rw [show trimmingM 0 1 0 notchMid = trimming notchMid 0 1 0 from rfl, htrim]
  decide

/-- C8: counterexample. The notching call of the spec's scenario succeeds,
but the boundary parent's cycle in the resulting mesh is `[10, 7, 5, 3]` of
length 4: the boundary cycle does not grow from 4 to 5 (the repository's own
`notching_test` asserts the same length 4). -/
theorem C8_counterexample :
    (notching sqMesh 0 ⟨mkRat 1 2, mkRat 1 2⟩).1 = .ok 2 ∧
    (notching sqMesh 0 ⟨mkRat 1 2, mkRat 1 2⟩).2.heFromParent 0 = .ok [10, 7, 5, 3] ∧
    ([10, 7, 5, 3] : List ℕ).length ≠ 5 := by
  rw [notching_sq]
  refine ⟨rfl, by decide, by decide⟩

/-- C8 (amended): `notching(HE = 0, (1/2, 1/2))` on the unit-square mesh of
scenario 1 succeeds and returns the new cell index 2; the mesh gains exactly
one vertex and one `Cell` parent; the boundary parent's cycle keeps length 4,
the original interior cell's cycle grows from 4 to 5, and the new cell's
cycle is a triangle of length 3; the result passes `check_mesh`. -/
theorem C8_amended_notching_square :
    notching sqMesh 0 ⟨mkRat 1 2, mkRat 1 2⟩ = (.ok 2, notchSq) ∧
    notchSq.vertices.length = sqMesh.vertices.length + 1 ∧
    notchSq.parents = sqMesh.parents ++ [Parent.Cell] ∧
    notchSq.heFromParent 0 = .ok [10, 7, 5, 3] ∧
    notchSq.heFromParent 1 = .ok [0, 8, 2, 4, 6] ∧
    notchSq.heFromParent 2 = .ok [11, 1, 9] ∧
    checkMesh notchSq = .ok () :=
  ⟨notching_sq, by decide, by decide, by decide, by decide, by decide, by decide⟩

end ClaimC8

section ClaimC9

/-- Modelled from the spec: `swap_edge` operates on two adjacent cell
parents sharing exactly one edge (so each cell is a triangle: it has exactly
one vertex not on the shared edge). The operation is absent from `src/`
(it is only exercised by the repository's old test file), so the local
configuration is modelled as the pair of vertex triples of the two cells. -/
structure CellPair where
  a : List ℕ
  b : List ℕ
deriving DecidableEq, Repr

/-- Boolean membership in a vertex list. -/
def memV (x : ℕ) : List ℕ → Bool
  | [] => false
  | y :: t => if x = y then true else memV x t

/-- The vertices of `l` that also lie on `r`. -/
def interV (l r : List ℕ) : List ℕ := l.filter (fun x => memV x r)

/-- The vertices of `l` that do not lie on `r`. -/
def diffV (l r : List ℕ) : List ℕ := l.filter (fun x => !memV x r)

/-- Modelled from the spec: the shared edge of the two cells, as the list of
their common vertices. -/
def sharedVerts (c : CellPair) : List ℕ := interV c.a c.b

/-- Modelled from the spec: the vertex of cell `a` not on the shared edge. -/
def oppA (c : CellPair) : ℕ := (diffV c.a c.b).headD 0

/-- Modelled from the spec: the vertex of cell `b` not on the shared edge. -/
def oppB (c : CellPair) : ℕ := (diffV c.b c.a).headD 0

/-- Modelled from the spec: `swap_edge` is legal when the two cells are
triangles (three distinct vertices each) sharing exactly one edge (exactly
two common vertices). -/
def swapLegal (c : CellPair) : Prop :=
  c.a.Nodup ∧ c.b.Nodup ∧ c.a.length = 3 ∧ c.b.length = 3 ∧ (sharedVerts c).length = 2

/-- Modelled from the spec: replace the shared edge by the edge connecting
the two opposite vertices; each new cell consists of that new edge plus one
of the two old shared vertices. -/
def swapEdge (c : CellPair) : CellPair :=
  { a := [oppA c, oppB c, (sharedVerts c).headD 0],
    b := [oppA c, oppB c, (sharedVerts c).getD 1 0] }

/-- The vertex set of the configuration. -/
def vertexSet (c : CellPair) : Finset ℕ := (c.a ++ c.b).toFinset

/-- The three faces (edges, as unordered vertex pairs) of one triangular
cell. -/
def cellEdges (l : List ℕ) : Finset (Finset ℕ) :=
  {{l.getD 0 0, l.getD 1 0}, {l.getD 1 0, l.getD 2 0}, {l.getD 2 0, l.getD 0 0}}

/-- The face set of the configuration, as unordered pairs of vertices. -/
def faceSet (c : CellPair) : Finset (Finset ℕ) := cellEdges c.a ∪ cellEdges c.b

/-- The cell-to-cell adjacency datum: the unordered pair of the two cells'
vertex sets (the cells stay adjacent through their shared edge). -/
def cellAdjacency (c : CellPair) : Finset (Finset ℕ) := {c.a.toFinset, c.b.toFinset}

/-- C9: on a legal adjacent cell pair (cells `{oa, s1, s2}` and
`{ob, s1, s2}` sharing the edge `{s1, s2}`, all four vertices distinct),
the pair is legal, and applying `swap_edge` twice returns a configuration
with the same vertex set, the same face set as unordered pairs of vertices,
and the same cell-to-cell adjacency as the start (a single application
yields the swapped cells `{oa, ob, s1}` and `{oa, ob, s2}`). -/
theorem C9_swap_edge_involutive (s1 s2 oa ob : ℕ)
    (h12 : s1 ≠ s2) (hab : oa ≠ ob) (ha1 : oa ≠ s1) (ha2 : oa ≠ s2)
    (hb1 : ob ≠ s1) (hb2 : ob ≠ s2) :
    swapLegal ⟨[oa, s1, s2], [ob, s1, s2]⟩ ∧
    swapEdge ⟨[oa, s1, s2], [ob, s1, s2]⟩ = ⟨[oa, ob, s1], [oa, ob, s2]⟩ ∧
    vertexSet (swapEdge (swapEdge ⟨[oa, s1, s2], [ob, s1, s2]⟩)) =
      vertexSet ⟨[oa, s1, s2], [ob, s1, s2]⟩ ∧
    faceSet (swapEdge (swapEdge ⟨[oa, s1, s2], [ob, s1, s2]⟩)) =
      faceSet ⟨[oa, s1, s2], [ob, s1, s2]⟩ ∧
    cellAdjacency (swapEdge (swapEdge ⟨[oa, s1, s2], [ob, s1, s2]⟩)) =
      cellAdjacency ⟨[oa, s1, s2], [ob, s1, s2]⟩ := by
  have h12' := Ne.symm h12
  have hab' := Ne.symm hab
  have ha1' := Ne.symm ha1
  have ha2' := Ne.symm ha2
  have hb1' := Ne.symm hb1
  have hb2' := Ne.symm hb2
  have hsw1 : swapEdge ⟨[oa, s1, s2], [ob, s1, s2]⟩ = ⟨[oa, ob, s1], [oa, ob, s2]⟩ := by
    simp [swapEdge, oppA, oppB, sharedVerts, interV, diffV, memV,
      h12, hab, ha1, ha2, hb1, hb2, h12', hab', ha1', ha2', hb1', hb2']
  have hsw2 : swapEdge ⟨[oa, ob, s1], [oa, ob, s2]⟩ = ⟨[s1, s2, oa], [s1, s2, ob]⟩ := by
    simp [swapEdge, oppA, oppB, sharedVerts, interV, diffV, memV,
      h12, hab, ha1, ha2, hb1, hb2, h12', hab', ha1', ha2', hb1', hb2']
  have hA : ([s1, s2, oa] : List ℕ).toFinset = ([oa, s1, s2] : List ℕ).toFinset := by
    ext x
    simp only [List.toFinset_cons, List.toFinset_nil, Finset.mem_insert,
      Finset.mem_singleton, Finset.not_mem_empty, or_false]
    tauto
  have hB : ([s1, s2, ob] : List ℕ).toFinset = ([ob, s1, s2] : List ℕ).toFinset := by
    ext x
    simp only [List.toFinset_cons, List.toFinset_nil, Finset.mem_insert,
      Finset.mem_singleton, Finset.not_mem_empty, or_false]
    tauto
  refine ⟨?_, hsw1, ?_, ?_, ?_⟩
  · refine ⟨by simp [h12, ha1, ha2], by simp [h12, hb1, hb2], rfl, rfl, ?_⟩
    simp [sharedVerts, interV, memV, hab, ha1, ha2, hb1', hb2', h12]
  · rw [hsw1, hsw2]
    ext x
    simp only [vertexSet, List.toFinset_append, List.toFinset_cons, List.toFinset_nil,
      Finset.mem_union, Finset.mem_insert, Finset.mem_singleton, Finset.not_mem_empty,
      or_false]
    tauto
  · rw [hsw1, hsw2]
    ext e
    simp only [faceSet, cellEdges, Finset.mem_union, Finset.mem_insert,
      Finset.mem_singleton, List.getD_cons_zero, List.getD_cons_succ]
    tauto
  · rw [hsw1, hsw2]
    simp only [cellAdjacency, hA, hB]

/-- Witness for C9 at the concrete cell pair `{2, 0, 1}` and `{3, 0, 1}`
sharing the edge `{0, 1}`. -/
theorem C9_witness :
    swapLegal ⟨[2, 0, 1], [3, 0, 1]⟩ ∧
    swapEdge ⟨[2, 0, 1], [3, 0, 1]⟩ = ⟨[2, 3, 0], [2, 3, 1]⟩ ∧
    vertexSet (swapEdge (swapEdge ⟨[2, 0, 1], [3, 0, 1]⟩)) =
      vertexSet ⟨[2, 0, 1], [3, 0, 1]⟩ ∧
    faceSet (swapEdge (swapEdge ⟨[2, 0, 1], [3, 0, 1]⟩)) =
      faceSet ⟨[2, 0, 1], [3, 0, 1]⟩ ∧
    cellAdjacency (swapEdge (swapEdge ⟨[2, 0, 1], [3, 0, 1]⟩)) =
      cellAdjacency ⟨[2, 0, 1], [3, 0, 1]⟩ :=
  C9_swap_edge_involutive 0 1 2 3 (by decide) (by decide) (by decide) (by decide)
    (by decide) (by decide)

end ClaimC9

end CfdRs
